import Mathlib

/-!
Fetch-target-buffer structures of `src/cpu/pred/ftb_struct.hh`

A shallow embedding of the branch-prediction bookkeeping structures
(`BranchInfo`, `BranchSlot`, `FTBEntryBase`, `FetchStream`, `FTQEntry`)
together with theorems about their member functions.

Conventions of the embedding:

* `Addr` and `InstSeqNum` are `uint64_t` in the source.  They are embedded as
  `Nat`; the only arithmetic the source performs on them is `start + 34` in
  `isReasonable`, which is reduced modulo `2 ^ 64` explicitly.
* `std::vector<BranchSlot>` is a `List BranchSlot`; the `for` loops over it
  are structural recursions that visit the slots in index order.
* `assert(c)` is a fault: a member function containing one returns `Option`,
  and `none` stands for the failed assertion.
* (`int` counters and indices) are `Int`.  They are bounded by the number of
  slots of one entry, so no wrap-around is modelled for them.
* `FTQEntry::size` is an `int` initialised from a `uint64_t` difference: the
  difference is taken modulo `2 ^ 64` and then narrowed modulo `2 ^ 32` to a
  two's complement value.
-/

namespace gem5.branch_prediction

/-- Machine word modulus of `Addr` (`uint64_t`). -/
def addrMod : Nat := 2 ^ 64

abbrev Addr := Nat
abbrev InstSeqNum := Nat
abbrev FetchStreamIdType := Nat
abbrev InstSizeType := Nat
abbrev ThreadID := Int

/-- The source's `enum class BranchType`. -/
inductive BranchType where
  | Unconditional
  | Conditional
  | Indirect
  | Call
  | Return
  | Syscall
  | Sysret
  | Other
  deriving DecidableEq, Repr

/-- The source's `struct BranchInfo`. -/
structure BranchInfo where
  pc : Addr
  target : Addr
  size : InstSizeType
  type : BranchType
  deriving DecidableEq, Repr

/-- Default constructor `BranchInfo()`. -/
def BranchInfo.default : BranchInfo :=
  { pc := 0, target := 0, size := 0, type := BranchType.Other }

def BranchInfo.isUnconditional (b : BranchInfo) : Bool :=
  decide (b.type = BranchType.Unconditional)

def BranchInfo.isConditional (b : BranchInfo) : Bool :=
  decide (b.type = BranchType.Conditional)

/-- Member `BranchInfo::operator<`: compares `pc` only. -/
def BranchInfo.lt (a other : BranchInfo) : Bool := decide (a.pc < other.pc)

/-- Member `BranchInfo::operator==`: compares `pc` only. -/
def BranchInfo.eq (a other : BranchInfo) : Bool := decide (a.pc = other.pc)

/-- Member `BranchInfo::operator>`: compares `pc` only. -/
def BranchInfo.gt (a other : BranchInfo) : Bool := decide (a.pc > other.pc)

/-- Member `BranchInfo::operator!=`: compares `pc` only. -/
def BranchInfo.ne (a other : BranchInfo) : Bool := decide (a.pc ≠ other.pc)

/-- The source's `class BranchSlot : public BranchInfo`. -/
structure BranchSlot extends BranchInfo where
  valid : Bool
  alwaysTaken : Bool
  deriving DecidableEq, Repr

/-- Default constructor `BranchSlot()`. -/
def BranchSlot.default : BranchSlot :=
  { toBranchInfo := BranchInfo.default, valid := false, alwaysTaken := false }

/-- Converting constructor `BranchSlot(const BranchInfo &bi)`. -/
def BranchSlot.ofBranchInfo (bi : BranchInfo) : BranchSlot :=
  { toBranchInfo := bi, valid := true, alwaysTaken := true }

def BranchSlot.condValid (s : BranchSlot) : Bool :=
  s.valid && s.toBranchInfo.isConditional

def BranchSlot.uncondValid (s : BranchSlot) : Bool :=
  s.valid && s.toBranchInfo.isUnconditional

/-- Member `BranchSlot::operator==`: all six fields. -/
def BranchSlot.eq (s other : BranchSlot) : Bool :=
  decide (s.valid = other.valid) && decide (s.pc = other.pc) &&
    decide (s.target = other.target) && decide (s.size = other.size) &&
    decide (s.type = other.type) && decide (s.alwaysTaken = other.alwaysTaken)

/-- The source's `template <int SlotNum> class FTBEntryBase`.  The template
parameter is not used by any member, so it is not carried. -/
structure FTBEntryBase where
  branchSlots : List BranchSlot
  tag : Addr
  tid : ThreadID
  fallthroughPC : Addr
  valid : Bool
  deriving DecidableEq, Repr

/-- Loop of `validSlotNum`, with the running counter `cnt`. -/
def validSlotNumLoop : List BranchSlot → Int → Int
  | [], cnt => cnt
  | s :: rest, cnt =>
    if s.valid then validSlotNumLoop rest (cnt + 1) else validSlotNumLoop rest cnt

def FTBEntryBase.validSlotNum (e : FTBEntryBase) : Int :=
  validSlotNumLoop e.branchSlots 0

/-- Loop of `validSlotNumBefore`, with the running counter `cnt`. -/
def validSlotNumBeforeLoop (pc : Addr) : List BranchSlot → Int → Int
  | [], cnt => cnt
  | s :: rest, cnt =>
    if s.valid && decide (s.pc < pc) then validSlotNumBeforeLoop pc rest (cnt + 1)
    else validSlotNumBeforeLoop pc rest cnt

def FTBEntryBase.validSlotNumBefore (e : FTBEntryBase) (pc : Addr) : Int :=
  validSlotNumBeforeLoop pc e.branchSlots 0

/-- Loop of `slotIdx`; `i` is the index of the head of the remaining slots. -/
def slotIdxLoop (pc : Addr) : List BranchSlot → Nat → Int
  | [], _ => -1
  | s :: rest, i =>
    if s.valid && decide (s.pc = pc) then (i : Int) else slotIdxLoop pc rest (i + 1)

def FTBEntryBase.slotIdx (e : FTBEntryBase) (pc : Addr) : Int :=
  slotIdxLoop pc e.branchSlots 0

/-- Range-for loop of `isReasonable`; the last argument is the current value
of the local `reasonable`.  A slot out of range sets it to `false` and breaks. -/
def isReasonableLoop (min max : Addr) : List BranchSlot → Bool → Bool
  | [], reasonable => reasonable
  | slot :: rest, reasonable =>
    if slot.valid && (decide (slot.pc < min) || decide (slot.pc > max)) then false
    else isReasonableLoop min max rest reasonable

def FTBEntryBase.isReasonable (e : FTBEntryBase) (start : Addr) : Bool :=
  let min := start
  let max := (start + 34) % addrMod
  let reasonable := isReasonableLoop min max e.branchSlots true
  if decide (e.fallthroughPC < min) || decide (e.fallthroughPC > max) then false
  else reasonable

/-- Loop of `FTBEntryBase::operator==` over the two slot vectors, entered once
the sizes are known to agree.  The test `branchSlots[i] != other.branchSlots[i]`
is written with `!=`; `BranchSlot` declares only `operator==`, so the member
found for `!=` is the inherited `BranchInfo::operator!=`. -/
def slotsEqLoop : List BranchSlot → List BranchSlot → Bool
  | a :: as, b :: bs =>
    if BranchInfo.ne a.toBranchInfo b.toBranchInfo then false else slotsEqLoop as bs
  | _, _ => true

/-- Member `FTBEntryBase::operator==`. -/
def FTBEntryBase.eq (e other : FTBEntryBase) : Bool :=
  if e.fallthroughPC ≠ other.fallthroughPC then false
  else if e.valid ≠ other.valid then false
  else if e.branchSlots.length ≠ other.branchSlots.length then false
  else slotsEqLoop e.branchSlots other.branchSlots

/-- The capability queries of an in-flight instruction handle (`DynInstPtr`)
that `FetchStream` calls: `isCondCtrl()`, `isUncondCtrl()` and
`pcState().branching()`.  The handle type itself is declared outside this
file. -/
structure DynInst where
  isCondCtrl : Bool
  isUncondCtrl : Bool
  branching : Bool
  deriving DecidableEq, Repr

/-- The source's `template <int SlotNum> class FetchStream`. -/
structure FetchStream where
  _predEntry : FTBEntryBase
  _updatedEntry : FTBEntryBase
  predBranchInfo : BranchInfo
  predHasBranch : Bool
  predHasTakenBranch : Bool
  predTakenBranchPC : Addr
  predTargetBranchPC : Addr
  predFallthroughPC : Addr
  resolved : Bool
  execBranchInfo : BranchInfo
  _execHasBranch : Bool
  _execHasTakenBranch : Bool
  _execTakenBranchPC : Addr
  _execTargetBranchPC : Addr
  _execFallthroughPC : Addr
  _firstInstSeq : InstSeqNum
  _lastInstSeq : InstSeqNum
  lastCommittedInstSeq : InstSeqNum
  streamId : FetchStreamIdType
  deriving DecidableEq, Repr

namespace FetchStream

/-- Member `condCtrlCommitted`: asserts the handle is a conditional control
instruction, reads its taken-ness, and has an empty body for both outcomes. -/
def condCtrlCommitted (s : FetchStream) (inst : DynInst) : Option FetchStream :=
  if inst.isCondCtrl then
    let taken := inst.branching
    if taken then some s else some s
  else none

/-- Member `uncondCtrlCommitted`: empty body. -/
def uncondCtrlCommitted (s : FetchStream) (_inst : DynInst) : FetchStream := s

def newInstFetched (s : FetchStream) (inst_seq : InstSeqNum) : FetchStream :=
  let s1 := if s._firstInstSeq = 0 then { s with _firstInstSeq := inst_seq } else s
  { s1 with _lastInstSeq := inst_seq }

def newInstCommitted (s : FetchStream) (inst : DynInst) (inst_seq : InstSeqNum) :
    Option FetchStream :=
  if decide (inst_seq = 0) || decide (inst_seq > s.lastCommittedInstSeq) then
    let s1 := { s with lastCommittedInstSeq := inst_seq }
    if inst.isCondCtrl then condCtrlCommitted s1 inst
    else if inst.isUncondCtrl then some (uncondCtrlCommitted s1 inst)
    else some s1
  else none

def taken (s : FetchStream) : Bool :=
  if s.resolved then s._execHasTakenBranch else s.predHasTakenBranch

def getBranchInfo (s : FetchStream) : BranchInfo :=
  if s.resolved then s.execBranchInfo else s.predBranchInfo

def getControlPC (s : FetchStream) : Addr := s.getBranchInfo.pc

def isTaken (s : FetchStream) : Bool :=
  if s.resolved then s._execHasTakenBranch else s.predHasTakenBranch

def getTakenTarget (s : FetchStream) : Addr := s.getBranchInfo.target

def takenBranchPC (s : FetchStream) : Addr :=
  if s.resolved then s._execTakenBranchPC else s.predTakenBranchPC

def targetPC (s : FetchStream) : Addr :=
  if s.resolved then s._execTargetBranchPC else s.predTargetBranchPC

def firstInstSeq (s : FetchStream) : InstSeqNum := s._firstInstSeq

def lastInstSeq (s : FetchStream) : InstSeqNum := s._lastInstSeq

def finished (s : FetchStream) : Bool :=
  decide (s.lastCommittedInstSeq = s._lastInstSeq)

/-- A caller registering the fetched sequence numbers `seqs` in order. -/
def fetchAll (s : FetchStream) (seqs : List InstSeqNum) : FetchStream :=
  seqs.foldl newInstFetched s

/-- A caller registering the commits `cs` in order; the first failed
assertion aborts the run. -/
def commitAll (s : FetchStream) : List (DynInst × InstSeqNum) → Option FetchStream
  | [] => some s
  | c :: rest =>
    match newInstCommitted s c.1 c.2 with
    | some s1 => commitAll s1 rest
    | none => none

end FetchStream

/-! ## Remaining members: classification, slot mutators, copy, fetch targets -/

/-- The capability queries of a static instruction descriptor
(`StaticInstPtr`) that the `BranchInfo` constructor calls.  The descriptor type
itself is declared outside this file. -/
structure StaticInst where
  isCondCtrl : Bool
  isIndirectCtrl : Bool
  isUncondCtrl : Bool
  isCall : Bool
  isReturn : Bool
  isNonSpeculative : Bool
  isDirectCtrl : Bool
  deriving DecidableEq, Repr

/-- Constructor `BranchInfo(control_pc, target_pc, inst, size)`: the member
initialisers store the three values with `type = Other`, then the `if` chain
of the body overwrites `type` at the first test that holds. -/
def BranchInfo.ofStaticInst (control_pc target_pc : Addr) (inst : StaticInst)
    (size : InstSizeType) : BranchInfo :=
  let b : BranchInfo :=
    { pc := control_pc, target := target_pc, size := size, type := BranchType.Other }
  if inst.isCondCtrl then { b with type := BranchType.Conditional }
  else if inst.isIndirectCtrl then { b with type := BranchType.Indirect }
  else if inst.isUncondCtrl then { b with type := BranchType.Unconditional }
  else if inst.isCall then { b with type := BranchType.Call }
  else if inst.isReturn && !inst.isNonSpeculative && !inst.isDirectCtrl then
    { b with type := BranchType.Return }
  else b

def BranchInfo.isIndirect (b : BranchInfo) : Bool := decide (b.type = BranchType.Indirect)

def BranchInfo.isCall (b : BranchInfo) : Bool := decide (b.type = BranchType.Call)

def BranchInfo.isReturn (b : BranchInfo) : Bool := decide (b.type = BranchType.Return)

def BranchInfo.isSyscall (b : BranchInfo) : Bool := decide (b.type = BranchType.Syscall)

def BranchInfo.isSysret (b : BranchInfo) : Bool := decide (b.type = BranchType.Sysret)

def BranchInfo.isOther (b : BranchInfo) : Bool := decide (b.type = BranchType.Other)

/-- The eight kind predicates of a `BranchInfo`, in the order of the source. -/
def BranchInfo.kindPredicates (b : BranchInfo) : List Bool :=
  [b.isUnconditional, b.isConditional, b.isIndirect, b.isCall, b.isReturn,
   b.isSyscall, b.isSysret, b.isOther]

def BranchSlot.invalidate (s : BranchSlot) : BranchSlot := { s with valid := false }

def BranchSlot.validate (s : BranchSlot) : BranchSlot := { s with valid := true }

def BranchSlot.unsetAlwaysTaken (s : BranchSlot) : BranchSlot := { s with alwaysTaken := false }

/-- The three mutators of a `BranchSlot`, as a caller may invoke them. -/
inductive SlotOp where
  | invalidate
  | validate
  | unsetAlwaysTaken
  deriving DecidableEq, Repr

def SlotOp.apply : SlotOp → BranchSlot → BranchSlot
  | SlotOp.invalidate, s => s.invalidate
  | SlotOp.validate, s => s.validate
  | SlotOp.unsetAlwaysTaken, s => s.unsetAlwaysTaken

/-- A caller invoking the mutators `ops` on a slot, in order. -/
def BranchSlot.applyOps (s : BranchSlot) (ops : List SlotOp) : BranchSlot :=
  ops.foldl (fun t op => op.apply t) s

/-- Loop of the copy constructor: `for (i = 0; i < branchSlots.size(); i++)
branchSlots[i] = ftb_entry.branchSlots[i]`.  `dst` is the vector under
construction, `i` the loop index and the first argument the number of
iterations left (`dst.length - i`). -/
def copySlotsLoop (src : List BranchSlot) : Nat → Nat → List BranchSlot → List BranchSlot
  | 0, _, dst => dst
  | n + 1, i, dst =>
    if i < dst.length then
      copySlotsLoop src n (i + 1) (dst.set i (src.getD i BranchSlot.default))
    else dst

/-- Copy constructor `FTBEntryBase(const FTBEntryBase &ftb_entry)`: the four
scalar members are assigned, the slot vector is resized to the size of the
source (filling it with default slots) and then assigned slot by slot. -/
def FTBEntryBase.copy (ftb_entry : FTBEntryBase) : FTBEntryBase :=
  let resized := List.replicate ftb_entry.branchSlots.length BranchSlot.default
  { tag := ftb_entry.tag,
    tid := ftb_entry.tid,
    fallthroughPC := ftb_entry.fallthroughPC,
    valid := ftb_entry.valid,
    branchSlots := copySlotsLoop ftb_entry.branchSlots resized.length 0 resized }

/-- Subtraction of two `Addr` values in `uint64_t`: the difference modulo
`2 ^ 64`. -/
def addrSub (a b : Addr) : Int := ((a : Int) - (b : Int)) % (2 : Int) ^ 64

/-- Conversion of a 64-bit unsigned value to `BlockSizeType` (`int`, 32 bits):
the value modulo `2 ^ 32`, read as a two's complement number. -/
def toBlockSizeType (x : Int) : Int :=
  let r := x % (2 : Int) ^ 32
  if r < (2 : Int) ^ 31 then r else r - (2 : Int) ^ 32

/-- The source's `struct FTQEntry`; `size` has type `BlockSizeType`. -/
structure FTQEntry where
  isStreamEnd : Bool
  streamId : FetchStreamIdType
  startPC : Addr
  endPC : Addr
  size : Int
  hasBranch : Bool
  targetPC : Addr
  deriving DecidableEq, Repr

/-- Constructor `FTQEntry(stream_id, start_pc, end_pc, has_branch, target_pc,
is_stream_end)`: every member is initialised from its argument and `size` from
`end_pc - start_pc`.  The body is empty; no argument is tested. -/
def FTQEntry.construct (stream_id : FetchStreamIdType) (start_pc end_pc : Addr)
    (has_branch : Bool) (target_pc : Addr) (is_stream_end : Bool) : FTQEntry :=
  { streamId := stream_id, startPC := start_pc, endPC := end_pc,
    hasBranch := has_branch, targetPC := target_pc,
    isStreamEnd := is_stream_end, size := toBlockSizeType (addrSub end_pc start_pc) }

/-! ## Concrete inputs used below -/

/-- An entry with no slots, used as filler for the two entries of a stream. -/
def emptyEntry : FTBEntryBase :=
  { branchSlots := [], tag := 0, tid := 0, fallthroughPC := 0, valid := false }

/-- A stream with a predicted and a different resolved outcome record. -/
def sampleStream (resolved : Bool) : FetchStream :=
  { _predEntry := emptyEntry, _updatedEntry := emptyEntry,
    predBranchInfo := { pc := 0x2008, target := 0x3000, size := 4, type := BranchType.Conditional },
    predHasBranch := true, predHasTakenBranch := true,
    predTakenBranchPC := 0x2008, predTargetBranchPC := 0x3000, predFallthroughPC := 0x2010,
    resolved := resolved,
    execBranchInfo := { pc := 0x200c, target := 0x4000, size := 2, type := BranchType.Unconditional },
    _execHasBranch := true, _execHasTakenBranch := false,
    _execTakenBranchPC := 0x200c, _execTargetBranchPC := 0x4000, _execFallthroughPC := 0x200e,
    _firstInstSeq := 0, _lastInstSeq := 0, lastCommittedInstSeq := 0, streamId := 42 }

/-- A handle that is not a control-flow instruction. -/
def nonCtrlInst : DynInst :=
  { isCondCtrl := false, isUncondCtrl := false, branching := false }

/-- A handle of a conditional branch that was resolved taken. -/
def condTakenInst : DynInst :=
  { isCondCtrl := true, isUncondCtrl := false, branching := true }

/-- The fetch-buffer entry of the end-to-end scenario: start `0x2000`, one valid
conditional slot at `0x2008` with target `0x3000`, fallthrough `0x2010`. -/
def scenarioEntry : FTBEntryBase :=
  { branchSlots :=
      [BranchSlot.ofBranchInfo
        { pc := 0x2008, target := 0x3000, size := 4, type := BranchType.Conditional }],
    tag := 0x2000, tid := 0, fallthroughPC := 0x2010, valid := true }

/-- The stream of the end-to-end scenario as it is opened: id `42`, unresolved,
the branch predicted not taken, no sequence number registered yet. -/
def scenarioStream : FetchStream :=
  { _predEntry := scenarioEntry, _updatedEntry := scenarioEntry,
    predBranchInfo := BranchInfo.default,
    predHasBranch := true, predHasTakenBranch := false,
    predTakenBranchPC := 0, predTargetBranchPC := 0, predFallthroughPC := 0x2010,
    resolved := false,
    execBranchInfo := BranchInfo.default,
    _execHasBranch := false, _execHasTakenBranch := false,
    _execTakenBranchPC := 0, _execTargetBranchPC := 0, _execFallthroughPC := 0,
    _firstInstSeq := 0, _lastInstSeq := 0, lastCommittedInstSeq := 0, streamId := 42 }

/-- The end-to-end scenario: fetch registers 100..103, commit registers
100..102 (not control flow) and then 103 (conditional, taken). -/
def scenarioRun : Option FetchStream :=
  FetchStream.commitAll (FetchStream.fetchAll scenarioStream [100, 101, 102, 103])
    [(nonCtrlInst, 100), (nonCtrlInst, 101), (nonCtrlInst, 102), (condTakenInst, 103)]

/-- The state the code reaches at the end of the scenario. -/
def scenarioFinal : FetchStream :=
  { scenarioStream with _firstInstSeq := 100, _lastInstSeq := 103, lastCommittedInstSeq := 103 }

/-- A stream whose last committed sequence number is `5`. -/
def committedFiveStream : FetchStream :=
  { sampleStream false with _firstInstSeq := 3, _lastInstSeq := 9, lastCommittedInstSeq := 5 }

/-- An entry with one valid, always-taken conditional slot at `0x1008`. -/
def slotPairEntryA : FTBEntryBase :=
  { branchSlots :=
      [{ pc := 0x1008, target := 0x2000, size := 4, type := BranchType.Conditional,
         valid := true, alwaysTaken := true }],
    tag := 0x1000, tid := 0, fallthroughPC := 0x1010, valid := true }

/-- The same entry with the slot at `0x1008` replaced by an invalid,
unconditional slot with another target and size. -/
def slotPairEntryB : FTBEntryBase :=
  { branchSlots :=
      [{ pc := 0x1008, target := 0x3000, size := 2, type := BranchType.Unconditional,
         valid := false, alwaysTaken := false }],
    tag := 0x1000, tid := 0, fallthroughPC := 0x1010, valid := true }

/-- An entry whose only valid slot and whose fallthrough address are both at
`0x1000`. -/
def atStartEntry : FTBEntryBase :=
  { branchSlots :=
      [{ pc := 0x1000, target := 0x2000, size := 4, type := BranchType.Conditional,
         valid := true, alwaysTaken := true }],
    tag := 0x1000, tid := 0, fallthroughPC := 0x1000, valid := true }

/-- An entry with one valid slot at `pc` and the given fallthrough address. -/
def oneSlotEntry (pc fallthrough : Addr) : FTBEntryBase :=
  { branchSlots :=
      [{ pc := pc, target := 0x2000, size := 4, type := BranchType.Conditional,
         valid := true, alwaysTaken := true }],
    tag := 0x1000, tid := 0, fallthroughPC := fallthrough, valid := true }

/-- A slot at `pc` with the given `valid` flag. -/
def slotAt (pc : Addr) (valid : Bool) : BranchSlot :=
  { pc := pc, target := 0x2000, size := 4, type := BranchType.Conditional,
    valid := valid, alwaysTaken := true }

/-- An entry with slots `(0x1000, valid)`, `(0x1010, invalid)`, `(0x1020, valid)`. -/
def threeSlotEntry : FTBEntryBase :=
  { branchSlots := [slotAt 0x1000 true, slotAt 0x1010 false, slotAt 0x1020 true],
    tag := 0x1000, tid := 0, fallthroughPC := 0x1022, valid := true }

/-- A descriptor that is both an unconditional control instruction and a call,
and neither conditional nor indirect. -/
def uncondCallInst : StaticInst :=
  { isCondCtrl := false, isIndirectCtrl := false, isUncondCtrl := true, isCall := true,
    isReturn := false, isNonSpeculative := false, isDirectCtrl := true }

/-- A stream whose last fetched sequence number is `9`. -/
def fetchedNineStream : FetchStream :=
  { sampleStream false with _firstInstSeq := 5, _lastInstSeq := 9 }

/-! ## Theorems -/

/-- C1: in the predicted state (`resolved = false`) the outcome accessors
`taken`, `isTaken`, `getBranchInfo`, `getControlPC`, `getTakenTarget`,
`takenBranchPC` and `targetPC` return the predicted fields, in the resolved
state they return the corresponding exec fields, and `taken` equals `isTaken`
in every state. -/
theorem FetchStream.accessors_follow_resolved (s : FetchStream) :
    (s.resolved = false →
      s.taken = s.predHasTakenBranch ∧ s.isTaken = s.predHasTakenBranch ∧
      s.getBranchInfo = s.predBranchInfo ∧ s.getControlPC = s.predBranchInfo.pc ∧
      s.getTakenTarget = s.predBranchInfo.target ∧
      s.takenBranchPC = s.predTakenBranchPC ∧ s.targetPC = s.predTargetBranchPC) ∧
    (s.resolved = true →
      s.taken = s._execHasTakenBranch ∧ s.isTaken = s._execHasTakenBranch ∧
      s.getBranchInfo = s.execBranchInfo ∧ s.getControlPC = s.execBranchInfo.pc ∧
      s.getTakenTarget = s.execBranchInfo.target ∧
      s.takenBranchPC = s._execTakenBranchPC ∧ s.targetPC = s._execTargetBranchPC) ∧
    s.taken = s.isTaken := by
  refine ⟨fun h => ?_, fun h => ?_, rfl⟩ <;>
    simp [taken, isTaken, getBranchInfo, getControlPC, getTakenTarget, takenBranchPC,
      targetPC, h]

/-- Witness for C1 at a stream in the predicted state and at the same stream
in the resolved state. -/
theorem FetchStream.accessors_follow_resolved_witness :
    ((sampleStream false).taken = true ∧ (sampleStream false).isTaken = true ∧
      (sampleStream false).getBranchInfo = (sampleStream false).predBranchInfo ∧
      (sampleStream false).getControlPC = 0x2008 ∧
      (sampleStream false).getTakenTarget = 0x3000 ∧
      (sampleStream false).takenBranchPC = 0x2008 ∧
      (sampleStream false).targetPC = 0x3000) ∧
    ((sampleStream true).taken = false ∧ (sampleStream true).isTaken = false ∧
      (sampleStream true).getBranchInfo = (sampleStream true).execBranchInfo ∧
      (sampleStream true).getControlPC = 0x200c ∧
      (sampleStream true).getTakenTarget = 0x4000 ∧
      (sampleStream true).takenBranchPC = 0x200c ∧
      (sampleStream true).targetPC = 0x4000) :=
  ⟨(FetchStream.accessors_follow_resolved (sampleStream false)).1 rfl,
   (FetchStream.accessors_follow_resolved (sampleStream true)).2.1 rfl⟩

/-! ### Commit and fetch registration -/

/-- Closed form of `newInstCommitted`: when the assertion holds the only
effect is the write to `lastCommittedInstSeq`. -/
theorem FetchStream.newInstCommitted_closed_form (s : FetchStream) (inst : DynInst)
    (q : InstSeqNum) :
    s.newInstCommitted inst q =
      if q = 0 ∨ s.lastCommittedInstSeq < q then
        some { s with lastCommittedInstSeq := q }
      else none := by
  unfold newInstCommitted condCtrlCommitted uncondCtrlCommitted
  by_cases h : q = 0 ∨ s.lastCommittedInstSeq < q
  · have h1 : (decide (q = 0) || decide (q > s.lastCommittedInstSeq)) = true := by
      simpa using h
    rw [if_pos h1, if_pos h]
    cases inst.isCondCtrl <;> cases inst.isUncondCtrl <;> simp
  · have h1 : ¬ ((decide (q = 0) || decide (q > s.lastCommittedInstSeq)) = true) := by
      simpa using h
    rw [if_neg h1, if_neg h]

theorem FetchStream.newInstCommitted_of_lt (s : FetchStream) (inst : DynInst)
    (q : InstSeqNum) (h : s.lastCommittedInstSeq < q) :
    s.newInstCommitted inst q = some { s with lastCommittedInstSeq := q } := by
  rw [FetchStream.newInstCommitted_closed_form, if_pos (Or.inr h)]

/-- Registering strictly increasing commits, all above the last committed
sequence number, succeeds and leaves the last of them in
`lastCommittedInstSeq`. -/
theorem FetchStream.commitAll_increasing :
    ∀ (cs : List (DynInst × InstSeqNum)) (s : FetchStream),
      (cs.map Prod.snd).Pairwise (· < ·) →
      (∀ c ∈ cs, s.lastCommittedInstSeq < c.2) →
      s.commitAll cs =
        some { s with
          lastCommittedInstSeq := (cs.map Prod.snd).getLastD s.lastCommittedInstSeq }
  | [], s, _, _ => rfl
  | c :: rest, s, hp, hlt => by
    have hc : s.lastCommittedInstSeq < c.2 := hlt c (List.mem_cons_self _ _)
    rw [List.map_cons, List.pairwise_cons] at hp
    have ih := FetchStream.commitAll_increasing rest
      { s with lastCommittedInstSeq := c.2 } hp.2
      (fun d hd => hp.1 d.2 (List.mem_map_of_mem Prod.snd hd))
    simp only [commitAll, FetchStream.newInstCommitted_of_lt s c.1 c.2 hc]
    rw [ih, List.map_cons, List.getLastD_cons]

/-- Closed form of one fetch registration. -/
theorem FetchStream.newInstFetched_closed_form (s : FetchStream) (q : InstSeqNum) :
    s.newInstFetched q =
      { s with
        _firstInstSeq := if s._firstInstSeq = 0 then q else s._firstInstSeq,
        _lastInstSeq := q } := by
  unfold newInstFetched
  by_cases h : s._firstInstSeq = 0 <;> simp [h]

/-- Once `_firstInstSeq` is set, fetch registrations only move `_lastInstSeq`. -/
theorem FetchStream.fetchAll_of_first_set :
    ∀ (l : List InstSeqNum) (s : FetchStream), s._firstInstSeq ≠ 0 →
      s.fetchAll l = { s with _lastInstSeq := l.getLastD s._lastInstSeq }
  | [], s, _ => rfl
  | q :: rest, s, h => by
    have hq : s.newInstFetched q = { s with _lastInstSeq := q } := by
      rw [FetchStream.newInstFetched_closed_form, if_neg h]
    have ih := FetchStream.fetchAll_of_first_set rest { s with _lastInstSeq := q } h
    simp only [fetchAll, List.foldl_cons] at ih ⊢
    rw [hq, ih, List.getLastD_cons]

/-- Fetch registrations leave `_lastInstSeq` at the last registered number and
never touch `lastCommittedInstSeq`. -/
theorem FetchStream.fetchAll_last_and_committed :
    ∀ (l : List InstSeqNum) (s : FetchStream),
      (s.fetchAll l)._lastInstSeq = l.getLastD s._lastInstSeq ∧
      (s.fetchAll l).lastCommittedInstSeq = s.lastCommittedInstSeq
  | [], _ => ⟨rfl, rfl⟩
  | q :: rest, s => by
    have ih := FetchStream.fetchAll_last_and_committed rest (s.newInstFetched q)
    simp only [fetchAll, List.foldl_cons] at ih ⊢
    rw [ih.1, ih.2, List.getLastD_cons]
    constructor
    · rw [FetchStream.newInstFetched_closed_form]
    · rw [FetchStream.newInstFetched_closed_form]

/-- C2, refuted as stated: at the end of the end-to-end scenario (fetch
100..103, commits 100..102 not control flow, commit 103 a conditional branch
resolved taken) the stream is still unresolved, `isTaken` is still the
predicted `false` and `getTakenTarget` is not `0x3000`. -/
theorem FetchStream.scenario_stays_unresolved :
    scenarioRun = some scenarioFinal ∧ scenarioStream.resolved = false ∧
      condTakenInst.isCondCtrl = true ∧ scenarioFinal.resolved = false ∧
      scenarioFinal.isTaken = false ∧ scenarioFinal.getTakenTarget ≠ 0x3000 := by
  refine ⟨by decide, rfl, rfl, rfl, rfl, by decide⟩

/-- C2, amended: for an unresolved stream, registering the commit of a
conditional or unconditional control instruction with an accepted sequence
number returns a stream that is still unresolved, whose `isTaken` and
`getTakenTarget` are the predicted values and whose `lastCommittedInstSeq` is
the new number.  In the end-to-end scenario, started from any unresolved stream
with no commit registered, the run completes with `finished` true, the stream
unresolved, and both accessors still returning the predicted values. -/
theorem FetchStream.ctrl_commit_keeps_predicted_view (s : FetchStream)
    (hres : s.resolved = false) :
    (∀ (inst : DynInst) (seq : InstSeqNum),
      inst.isCondCtrl = true ∨ inst.isUncondCtrl = true →
      seq = 0 ∨ s.lastCommittedInstSeq < seq →
      ∃ t, s.newInstCommitted inst seq = some t ∧ t.resolved = false ∧
        t.isTaken = s.predHasTakenBranch ∧
        t.getTakenTarget = s.predBranchInfo.target ∧
        t.lastCommittedInstSeq = seq) ∧
    (∀ (n1 n2 n3 c : DynInst), c.isCondCtrl = true →
      s.lastCommittedInstSeq = 0 →
      ∃ t, (s.fetchAll [100, 101, 102, 103]).commitAll
            [(n1, 100), (n2, 101), (n3, 102), (c, 103)] = some t ∧
        t.resolved = false ∧ t.isTaken = s.predHasTakenBranch ∧
        t.getTakenTarget = s.predBranchInfo.target ∧ t.finished = true) := by
  constructor
  · intro inst seq _ hseq
    refine ⟨{ s with lastCommittedInstSeq := seq }, ?_, hres, ?_, ?_, rfl⟩
    · rw [FetchStream.newInstCommitted_closed_form, if_pos hseq]
    · simp [isTaken, hres]
    · simp [getTakenTarget, getBranchInfo, hres]
  · intro n1 n2 n3 c _ h0
    obtain ⟨hl, hc⟩ := FetchStream.fetchAll_last_and_committed [100, 101, 102, 103] s
    have hrun := FetchStream.commitAll_increasing
      [(n1, 100), (n2, 101), (n3, 102), (c, 103)] (s.fetchAll [100, 101, 102, 103])
      (by simp) (by simp [hc, h0])
    refine ⟨_, hrun, ?_, ?_, ?_, ?_⟩
    · simp [fetchAll, newInstFetched_closed_form, hres]
    · simp [isTaken, fetchAll, newInstFetched_closed_form, hres]
    · simp [getTakenTarget, getBranchInfo, fetchAll, newInstFetched_closed_form, hres]
    · simp [finished, hl, List.getLastD]

/-- Witness for the amended C2: the scenario stream, a taken conditional
branch, sequence number `103`. -/
theorem FetchStream.ctrl_commit_keeps_predicted_view_witness :
    scenarioStream.resolved = false ∧
    (∃ t, scenarioStream.newInstCommitted condTakenInst 103 = some t ∧
      t.resolved = false ∧ t.isTaken = scenarioStream.predHasTakenBranch ∧
      t.getTakenTarget = scenarioStream.predBranchInfo.target ∧
      t.lastCommittedInstSeq = 103) :=
  ⟨rfl, (FetchStream.ctrl_commit_keeps_predicted_view scenarioStream rfl).1
    condTakenInst 103 (Or.inl rfl) (Or.inr (by decide))⟩

/-- C3, refuted as stated: on a stream whose last committed sequence number is
`5`, registering the commit of sequence number `0` passes the assertion
although `0` is not greater than `5` and `5` is not the unset value; the call
completes and lowers `lastCommittedInstSeq` from `5` to `0`. -/
theorem FetchStream.commit_zero_accepted_after_five :
    committedFiveStream.lastCommittedInstSeq = 5 ∧
      committedFiveStream.newInstCommitted nonCtrlInst 0 =
        some { committedFiveStream with lastCommittedInstSeq := 0 } ∧
      ¬ (5 < 0 ∨ 5 = 0) := by
  refine ⟨rfl, by decide, by decide⟩

/-- C3, amended: for a non-zero sequence number, `newInstCommitted` completes
exactly when the number is strictly greater than the previous
`lastCommittedInstSeq` (always the case when that is the unset value `0`), and
then `lastCommittedInstSeq` is the new number and nothing else changes; a
non-zero duplicate or out-of-order number is a fault.  Over any sequence of
completed registrations of non-zero numbers, `lastCommittedInstSeq` never
decreases. -/
theorem FetchStream.newInstCommitted_nonzero_seq (s : FetchStream) (inst : DynInst)
    (seq : InstSeqNum) (hseq : seq ≠ 0) :
    ((s.newInstCommitted inst seq).isSome = true ↔ s.lastCommittedInstSeq < seq) ∧
    (s.lastCommittedInstSeq < seq →
      s.newInstCommitted inst seq = some { s with lastCommittedInstSeq := seq }) ∧
    (seq ≤ s.lastCommittedInstSeq → s.newInstCommitted inst seq = none) ∧
    (s.lastCommittedInstSeq = 0 →
      s.newInstCommitted inst seq = some { s with lastCommittedInstSeq := seq }) ∧
    (∀ (cs : List (DynInst × InstSeqNum)) (t : FetchStream),
      (∀ c ∈ cs, c.2 ≠ 0) → s.commitAll cs = some t →
      s.lastCommittedInstSeq ≤ t.lastCommittedInstSeq) := by
  have hcf := FetchStream.newInstCommitted_closed_form s inst seq
  refine ⟨?_, ?_, ?_, ?_, ?_⟩
  · by_cases h : s.lastCommittedInstSeq < seq
    · simp [hcf, h]
    · simp [hcf, h, hseq]
  · intro h
    rw [hcf, if_pos (Or.inr h)]
  · intro h
    rw [hcf, if_neg (by simp only [InstSeqNum] at *; omega)]
  · intro h
    rw [hcf, if_pos (Or.inr (by simp only [InstSeqNum] at *; omega))]
  · intro cs
    clear hcf
    induction cs generalizing s with
    | nil =>
      intro t _ h
      simp only [commitAll, Option.some.injEq] at h
      rw [h]
    | cons c rest ih =>
      intro t hnz h
      have hc : c.2 ≠ 0 := hnz c (List.mem_cons_self _ _)
      by_cases hlt : s.lastCommittedInstSeq < c.2
      · simp only [commitAll, FetchStream.newInstCommitted_of_lt s c.1 c.2 hlt] at h
        have := ih { s with lastCommittedInstSeq := c.2 } t
          (fun d hd => hnz d (List.mem_cons_of_mem _ hd)) h
        exact Nat.le_of_lt (Nat.lt_of_lt_of_le hlt this)
      · have hnone : s.newInstCommitted c.1 c.2 = none := by
          rw [FetchStream.newInstCommitted_closed_form,
            if_neg (by simp only [InstSeqNum] at *; omega)]
        simp [commitAll, hnone] at h

/-- Witness for the amended C3: after sequence number `5`, number `7` is
accepted. -/
theorem FetchStream.newInstCommitted_nonzero_seq_witness :
    (7 : InstSeqNum) ≠ 0 ∧
    committedFiveStream.newInstCommitted condTakenInst 7 =
      some { committedFiveStream with lastCommittedInstSeq := 7 } :=
  ⟨by decide,
   (FetchStream.newInstCommitted_nonzero_seq committedFiveStream condTakenInst 7
      (by decide)).2.1 (by decide)⟩

/-- The last element of `l1 ++ c :: l2` is the last element of `l2`, or `c`
when `l2` is empty. -/
theorem getLastD_append_cons (l1 l2 : List InstSeqNum) (c d : InstSeqNum) :
    (l1 ++ c :: l2).getLastD d = l2.getLastD c := by
  induction l1 generalizing d with
  | nil => rw [List.nil_append, List.getLastD_cons]
  | cons a rest ih => rw [List.cons_append, List.getLastD_cons, ih]

theorem getLastD_mem_of_ne_nil :
    ∀ (l : List InstSeqNum) (d : InstSeqNum), l ≠ [] → l.getLastD d ∈ l
  | [], _, h => absurd rfl h
  | [a], _, _ => by simp [List.getLastD]
  | a :: b :: rest, _, _ => by
    rw [List.getLastD_cons]
    exact List.mem_cons_of_mem _ (getLastD_mem_of_ne_nil (b :: rest) a (by simp))

/-- C4: `finished` is true exactly when `lastCommittedInstSeq` equals
`lastInstSeq`.  For a stream with no commit registered yet, after the fetch of
a non-empty strictly increasing list of non-zero sequence numbers and the
commit of the same numbers in order, every commit completes, and `finished`
is true after a commit exactly when it is the last one. -/
theorem FetchStream.finished_after_each_commit (s : FetchStream)
    (cs : List (DynInst × InstSeqNum))
    (hcommitted : s.lastCommittedInstSeq = 0)
    (hinc : (cs.map Prod.snd).Pairwise (· < ·))
    (hnz : ∀ c ∈ cs, c.2 ≠ 0) :
    (∀ t : FetchStream, t.finished = true ↔ t.lastCommittedInstSeq = t.lastInstSeq) ∧
    (∀ (cs1 cs2 : List (DynInst × InstSeqNum)) (c : DynInst × InstSeqNum),
      cs = cs1 ++ c :: cs2 →
      ∃ t, (s.fetchAll (cs.map Prod.snd)).commitAll (cs1 ++ [c]) = some t ∧
        t.lastCommittedInstSeq = c.2 ∧
        (t.finished = true ↔ cs2 = [])) := by
  refine ⟨fun t => by simp [finished, lastInstSeq], ?_⟩
  intro cs1 cs2 c hcs
  obtain ⟨hl, hc⟩ := FetchStream.fetchAll_last_and_committed (cs.map Prod.snd) s
  have hsplit : cs.map Prod.snd = cs1.map Prod.snd ++ c.2 :: cs2.map Prod.snd := by
    rw [hcs, List.map_append, List.map_cons]
  have hinc1 : ((cs1 ++ [c]).map Prod.snd).Pairwise (· < ·) := by
    refine List.Pairwise.sublist ?_ hinc
    rw [hcs]
    exact List.Sublist.map _
      (List.Sublist.append (List.Sublist.refl cs1)
        (List.Sublist.cons₂ c (List.nil_sublist cs2)))
  have hpos : ∀ d ∈ cs1 ++ [c], (s.fetchAll (cs.map Prod.snd)).lastCommittedInstSeq < d.2 := by
    intro d hd
    rw [hc, hcommitted]
    refine Nat.pos_of_ne_zero (hnz d ?_)
    rw [hcs]
    rcases List.mem_append.mp hd with h | h
    · exact List.mem_append_left _ h
    · rw [List.mem_singleton] at h
      rw [h]
      exact List.mem_append_right _ (List.mem_cons_self _ _)
  have hrun := FetchStream.commitAll_increasing (cs1 ++ [c])
    (s.fetchAll (cs.map Prod.snd)) hinc1 hpos
  have hlastc : ((cs1 ++ [c]).map Prod.snd).getLastD
      (s.fetchAll (cs.map Prod.snd)).lastCommittedInstSeq = c.2 := by
    rw [List.map_append, List.map_cons, List.map_nil, getLastD_append_cons]
    rfl
  rw [hlastc] at hrun
  refine ⟨_, hrun, rfl, ?_⟩
  have hfin : (s.fetchAll (cs.map Prod.snd))._lastInstSeq = (cs2.map Prod.snd).getLastD c.2 := by
    rw [hl, hsplit, getLastD_append_cons]
  simp only [finished, hfin, decide_eq_true_eq]
  constructor
  · intro heq
    by_contra hne
    have hne2 : cs2.map Prod.snd ≠ [] := by simpa using hne
    have hmem := getLastD_mem_of_ne_nil (cs2.map Prod.snd) c.2 hne2
    rw [hsplit, List.pairwise_append] at hinc
    have hlt := (List.pairwise_cons.mp hinc.2.1).1 _ hmem
    rw [← heq] at hlt
    exact Nat.lt_irrefl _ hlt
  · intro h
    rw [h]
    rfl

/-- Witness for C4: sequence numbers `5` and `9` are fetched and committed;
after the commit of `5` the stream is not finished, after the commit of `9`
it is. -/
theorem FetchStream.finished_after_each_commit_witness :
    (∃ t, ((sampleStream false).fetchAll [5, 9]).commitAll [(nonCtrlInst, 5)] = some t ∧
      t.lastCommittedInstSeq = 5 ∧ (t.finished = true ↔ [(condTakenInst, 9)] = [])) ∧
    (∃ t, ((sampleStream false).fetchAll [5, 9]).commitAll
        [(nonCtrlInst, 5), (condTakenInst, 9)] = some t ∧
      t.lastCommittedInstSeq = 9 ∧
      (t.finished = true ↔ ([] : List (DynInst × InstSeqNum)) = [])) :=
  ⟨(FetchStream.finished_after_each_commit (sampleStream false)
      [(nonCtrlInst, 5), (condTakenInst, 9)] rfl (by decide) (by decide)).2
      [] [(condTakenInst, 9)] (nonCtrlInst, 5) rfl,
   (FetchStream.finished_after_each_commit (sampleStream false)
      [(nonCtrlInst, 5), (condTakenInst, 9)] rfl (by decide) (by decide)).2
      [(nonCtrlInst, 5)] [] (condTakenInst, 9) rfl⟩

/-- C5: `newInstFetched` writes `firstInstSeq` exactly when it was the unset
value `0`, always writes `lastInstSeq`, and changes no other field.  Starting
with `firstInstSeq` unset, registering a non-empty list of non-zero sequence
numbers in order leaves `firstInstSeq` at the first element, `lastInstSeq` at
the last element and every other field as it was. -/
theorem FetchStream.newInstFetched_first_last (s : FetchStream) (l : List InstSeqNum)
    (hfirst : s._firstInstSeq = 0) (hne : l ≠ []) (hnz : ∀ q ∈ l, q ≠ 0) :
    (∀ (t : FetchStream) (q : InstSeqNum),
      (t._firstInstSeq = 0 → t.newInstFetched q = { t with _firstInstSeq := q, _lastInstSeq := q }) ∧
      (t._firstInstSeq ≠ 0 → t.newInstFetched q = { t with _lastInstSeq := q })) ∧
    s.fetchAll l = { s with _firstInstSeq := l.head hne, _lastInstSeq := l.getLast hne } ∧
    (s.fetchAll l).firstInstSeq = l.head hne ∧
    (s.fetchAll l).lastInstSeq = l.getLast hne := by
  have hall : s.fetchAll l =
      { s with _firstInstSeq := l.head hne, _lastInstSeq := l.getLast hne } := by
    match l, hne, hnz with
    | q :: rest, _, hnz =>
      have hq : q ≠ 0 := hnz q (List.mem_cons_self _ _)
      have h1 : s.newInstFetched q = { s with _firstInstSeq := q, _lastInstSeq := q } := by
        rw [FetchStream.newInstFetched_closed_form, if_pos hfirst]
      have h2 := FetchStream.fetchAll_of_first_set rest
        { s with _firstInstSeq := q, _lastInstSeq := q } hq
      have h3 : s.fetchAll (q :: rest) = (s.newInstFetched q).fetchAll rest := rfl
      rw [h3, h1, h2, List.head_cons]
      have h4 : rest.getLastD q = (q :: rest).getLast (List.cons_ne_nil q rest) := by
        rw [← List.getLastD_cons q q rest, List.getLastD_eq_getLast?,
          List.getLast?_eq_getLast _ (List.cons_ne_nil q rest)]
        rfl
      simp only [h4]
  refine ⟨fun t q => ⟨fun h => ?_, fun h => ?_⟩, hall, ?_, ?_⟩
  · rw [FetchStream.newInstFetched_closed_form, if_pos h]
  · rw [FetchStream.newInstFetched_closed_form, if_neg h]
  · rw [hall]; rfl
  · rw [hall]; rfl

/-- Witness for C5: registering `5` and then `9` on a stream with
`firstInstSeq` unset gives `firstInstSeq() = 5` and `lastInstSeq() = 9`. -/
theorem FetchStream.newInstFetched_first_last_witness :
    ((sampleStream false).fetchAll [5, 9]).firstInstSeq = 5 ∧
    ((sampleStream false).fetchAll [5, 9]).lastInstSeq = 9 :=
  ⟨(FetchStream.newInstFetched_first_last (sampleStream false) [5, 9] rfl
      (by decide) (by decide)).2.2.1,
   (FetchStream.newInstFetched_first_last (sampleStream false) [5, 9] rfl
      (by decide) (by decide)).2.2.2⟩

/-! ### Fetch buffer entries -/

/-- The slot loop of `operator==` on vectors of equal length compares the
slot addresses and nothing else. -/
theorem slotsEqLoop_iff_pcs :
    ∀ (l1 l2 : List BranchSlot), l1.length = l2.length →
      (slotsEqLoop l1 l2 = true ↔ l1.map (fun s => s.pc) = l2.map (fun s => s.pc))
  | [], [], _ => by simp [slotsEqLoop]
  | [], _ :: _, h => by simp at h
  | _ :: _, [], h => by simp at h
  | a :: as, b :: bs, h => by
    have ih := slotsEqLoop_iff_pcs as bs (by simpa using h)
    by_cases hpc : a.pc = b.pc
    · simp [slotsEqLoop, BranchInfo.ne, hpc, ih]
    · simp [slotsEqLoop, BranchInfo.ne, hpc]

/-- What `FTBEntryBase::operator==` decides: equal `fallthroughPC`, equal
`valid`, and the same sequence of slot addresses. -/
theorem FTBEntryBase.eq_iff (e other : FTBEntryBase) :
    e.eq other = true ↔
      e.fallthroughPC = other.fallthroughPC ∧ e.valid = other.valid ∧
      e.branchSlots.map (fun s => s.pc) = other.branchSlots.map (fun s => s.pc) := by
  unfold FTBEntryBase.eq
  by_cases h1 : e.fallthroughPC = other.fallthroughPC
  · by_cases h2 : e.valid = other.valid
    · by_cases h3 : e.branchSlots.length = other.branchSlots.length
      · simp [h1, h2, h3, slotsEqLoop_iff_pcs _ _ h3]
      · have h4 : e.branchSlots.map (fun s => s.pc) ≠ other.branchSlots.map (fun s => s.pc) := by
          intro hmap
          apply h3
          have := congrArg List.length hmap
          simpa using this
        simp [h1, h2, h3, h4]
    · simp [h1, h2]
  · simp [h1]

/-- C6, the code at the failing input: two entries whose single slots share
the address `0x1008` but differ in `valid`, `target`, `size`, `type` and
`alwaysTaken` compare equal under `FTBEntryBase::operator==`, although the
slots are not equal under `BranchSlot::operator==`. -/
theorem FTBEntryBase.eq_ignores_slot_fields :
    slotPairEntryA.eq slotPairEntryB = true ∧
    slotPairEntryA.fallthroughPC = slotPairEntryB.fallthroughPC ∧
    slotPairEntryA.valid = slotPairEntryB.valid ∧
    slotPairEntryA.branchSlots.length = slotPairEntryB.branchSlots.length ∧
    List.zipWith BranchSlot.eq slotPairEntryA.branchSlots slotPairEntryB.branchSlots
      = [false] := by
  decide

/-- The slot loop of `isReasonable`, started with `reasonable = true`, ends
with `true` exactly when every valid slot lies in `[min, max]`. -/
theorem isReasonableLoop_iff (min max : Addr) :
    ∀ l : List BranchSlot,
      (isReasonableLoop min max l true = true ↔
        ∀ s ∈ l, s.valid = true → min ≤ s.pc ∧ s.pc ≤ max)
  | [] => by simp [isReasonableLoop]
  | a :: rest => by
    have ih := isReasonableLoop_iff min max rest
    unfold isReasonableLoop
    by_cases hv : a.valid = true
    · by_cases hr : min ≤ a.pc ∧ a.pc ≤ max
      · have hc : ¬ ((a.valid && (decide (a.pc < min) || decide (a.pc > max))) = true) := by
          simp [hv, Nat.not_lt.mpr hr.1, Nat.not_lt.mpr hr.2]
        rw [if_neg hc, ih]
        simp [hv, hr]
      · have hc : (a.valid && (decide (a.pc < min) || decide (a.pc > max))) = true := by
          simp only [hv, Bool.true_and, Bool.or_eq_true, decide_eq_true_eq]
          by_cases h1 : a.pc < min
          · exact Or.inl h1
          · exact Or.inr (Nat.lt_of_not_le (fun h2 => hr ⟨Nat.le_of_not_lt h1, h2⟩))
        rw [if_pos hc]
        simp only [Bool.false_eq_true, false_iff]
        intro hall
        exact hr (hall a (List.mem_cons_self _ _) hv)
    · have hc : ¬ ((a.valid && (decide (a.pc < min) || decide (a.pc > max))) = true) := by
        simp [hv]
      rw [if_neg hc, ih]
      simp [hv]

/-- What `isReasonable` decides: every valid slot address and the fallthrough
address lie in the closed range from `start` to `(start + 34) mod 2^64`. -/
theorem FTBEntryBase.isReasonable_iff (e : FTBEntryBase) (start : Addr) :
    e.isReasonable start = true ↔
      (∀ s ∈ e.branchSlots, s.valid = true →
        start ≤ s.pc ∧ s.pc ≤ (start + 34) % addrMod) ∧
      start ≤ e.fallthroughPC ∧ e.fallthroughPC ≤ (start + 34) % addrMod := by
  unfold FTBEntryBase.isReasonable
  simp only
  by_cases hf : start ≤ e.fallthroughPC ∧ e.fallthroughPC ≤ (start + 34) % addrMod
  · have hc : ¬ ((decide (e.fallthroughPC < start) ||
        decide (e.fallthroughPC > (start + 34) % addrMod)) = true) := by
      simp [Nat.not_lt.mpr hf.1, Nat.not_lt.mpr hf.2]
    rw [if_neg hc, isReasonableLoop_iff]
    simp [hf]
  · have hc : (decide (e.fallthroughPC < start) ||
        decide (e.fallthroughPC > (start + 34) % addrMod)) = true := by
      simp only [Bool.or_eq_true, decide_eq_true_eq]
      by_cases h1 : e.fallthroughPC < start
      · exact Or.inl h1
      · exact Or.inr (Nat.lt_of_not_le (fun h2 => hf ⟨Nat.le_of_not_lt h1, h2⟩))
    rw [if_pos hc]
    simp only [Bool.false_eq_true, false_iff]
    exact fun h => hf h.2

/-- C7, the code at the failing input: with `start = 0x1000`, an entry whose
valid slot and whose `fallthroughPC` are both at `0x1000` is reported
reasonable, although neither address is strictly greater than `start`. -/
theorem FTBEntryBase.isReasonable_accepts_start :
    atStartEntry.isReasonable 0x1000 = true ∧
    ¬ (0x1000 < atStartEntry.fallthroughPC) ∧
    (∀ s ∈ atStartEntry.branchSlots, s.valid = true ∧ ¬ (0x1000 < s.pc)) := by
  decide

/-- Invalid slots are skipped by the slot loop of `isReasonable`. -/
theorem isReasonableLoop_filter_valid (min max : Addr) :
    ∀ l : List BranchSlot,
      isReasonableLoop min max (l.filter (fun s => s.valid)) true =
        isReasonableLoop min max l true
  | [] => rfl
  | a :: rest => by
    have ih := isReasonableLoop_filter_valid min max rest
    cases hv : a.valid
    · rw [List.filter_cons_of_neg (by simp [hv]), ih]
      simp [isReasonableLoop, hv]
    · rw [List.filter_cons_of_pos (by simp [hv])]
      simp only [isReasonableLoop, hv, Bool.true_and, ih]

/-- C8: when `start + 34` does not overflow 64 bits, a valid slot above
`start + 34` or a fallthrough address above `start + 34` makes
`isReasonable(start)` false; valid slot addresses and a fallthrough address all
within `(start, start + 34]` make it true; and the result is the same as for
the entry with its invalid slots removed. -/
theorem FTBEntryBase.isReasonable_upper_bound (e : FTBEntryBase) (start : Addr)
    (hno : start + 34 < addrMod) :
    ((∃ s ∈ e.branchSlots, s.valid = true ∧ start + 34 < s.pc) ∨
        start + 34 < e.fallthroughPC →
      e.isReasonable start = false) ∧
    ((∀ s ∈ e.branchSlots, s.valid = true → start < s.pc ∧ s.pc ≤ start + 34) ∧
        start < e.fallthroughPC ∧ e.fallthroughPC ≤ start + 34 →
      e.isReasonable start = true) ∧
    e.isReasonable start =
      FTBEntryBase.isReasonable
        { e with branchSlots := e.branchSlots.filter (fun s => s.valid) } start := by
  have hmod : (start + 34) % addrMod = start + 34 := Nat.mod_eq_of_lt hno
  refine ⟨?_, ?_, ?_⟩
  · intro h
    rw [← Bool.not_eq_true, FTBEntryBase.isReasonable_iff, hmod]
    rintro ⟨hs, _, hf⟩
    rcases h with ⟨t, ht, hv, hlt⟩ | hlt
    · exact Nat.lt_irrefl _ (Nat.lt_of_lt_of_le hlt (hs t ht hv).2)
    · exact Nat.lt_irrefl _ (Nat.lt_of_lt_of_le hlt hf)
  · rintro ⟨hs, hf1, hf2⟩
    rw [FTBEntryBase.isReasonable_iff, hmod]
    exact ⟨fun t ht hv => ⟨Nat.le_of_lt (hs t ht hv).1, (hs t ht hv).2⟩,
      Nat.le_of_lt hf1, hf2⟩
  · unfold FTBEntryBase.isReasonable
    simp only [isReasonableLoop_filter_valid]

/-- Witness for C8 with `start = 0x1000`: a valid slot at `0x1000 + 36` gives
`false`; a valid slot at `0x1000 + 34` with fallthrough `0x1000 + 20` gives
`true`; a fallthrough at `0x1000 + 35` gives `false`. -/
theorem FTBEntryBase.isReasonable_upper_bound_witness :
    (oneSlotEntry (0x1000 + 36) (0x1000 + 20)).isReasonable 0x1000 = false ∧
    (oneSlotEntry (0x1000 + 34) (0x1000 + 20)).isReasonable 0x1000 = true ∧
    (oneSlotEntry (0x1000 + 34) (0x1000 + 35)).isReasonable 0x1000 = false :=
  ⟨(FTBEntryBase.isReasonable_upper_bound (oneSlotEntry (0x1000 + 36) (0x1000 + 20))
      0x1000 (by decide)).1 (Or.inl (by decide)),
   (FTBEntryBase.isReasonable_upper_bound (oneSlotEntry (0x1000 + 34) (0x1000 + 20))
      0x1000 (by decide)).2.1 (by decide),
   (FTBEntryBase.isReasonable_upper_bound (oneSlotEntry (0x1000 + 34) (0x1000 + 35))
      0x1000 (by decide)).1 (Or.inr (by decide))⟩

/-- The loop of `slotIdx` started at index `i`: it returns `i + j` for the
first position `j` of a valid slot at `pc`, and `-1` when there is none. -/
theorem slotIdxLoop_spec (pc : Addr) :
    ∀ (l : List BranchSlot) (i : Nat),
      ((∃ s ∈ l, s.valid = true ∧ s.pc = pc) →
        ∃ j, j < l.length ∧ slotIdxLoop pc l i = ((i + j : Nat) : Int) ∧
          (∃ s, l[j]? = some s ∧ s.valid = true ∧ s.pc = pc) ∧
          ∀ k, k < j → ∀ t, l[k]? = some t → ¬ (t.valid = true ∧ t.pc = pc)) ∧
      ((¬ ∃ s ∈ l, s.valid = true ∧ s.pc = pc) → slotIdxLoop pc l i = -1)
  | [], i => by simp [slotIdxLoop]
  | a :: rest, i => by
    have ih := slotIdxLoop_spec pc rest (i + 1)
    by_cases ha : a.valid = true ∧ a.pc = pc
    · have hc : (a.valid && decide (a.pc = pc)) = true := by simp [ha]
      constructor
      · intro _
        refine ⟨0, by simp, ?_, ⟨a, by simp, ha⟩, ?_⟩
        · simp [slotIdxLoop, hc]
        · intro k hk
          exact absurd hk (Nat.not_lt_zero k)
      · intro hno
        exact absurd ⟨a, List.mem_cons_self _ _, ha⟩ hno
    · have hc : ¬ ((a.valid && decide (a.pc = pc)) = true) := by
        simpa using ha
      have hstep : slotIdxLoop pc (a :: rest) i = slotIdxLoop pc rest (i + 1) := by
        simp only [slotIdxLoop, if_neg hc]
      constructor
      · rintro ⟨s, hs, hsv⟩
        have hs2 : s ∈ rest := by
          rcases List.mem_cons.mp hs with h | h
          · rw [h] at hsv
            exact absurd hsv ha
          · exact h
        obtain ⟨j, hj, hval, hslot, hmin⟩ := ih.1 ⟨s, hs2, hsv⟩
        refine ⟨j + 1, by simpa using hj, ?_, ?_, ?_⟩
        · rw [hstep, hval]
          congr 1
          exact Nat.add_right_comm i 1 j
        · simpa using hslot
        · intro k hk t ht
          cases k with
          | zero =>
            simp only [List.getElem?_cons_zero, Option.some.injEq] at ht
            rw [← ht]
            exact ha
          | succ k =>
            simp only [List.getElem?_cons_succ] at ht
            exact hmin k (Nat.lt_of_succ_lt_succ hk) t ht
      · intro hno
        rw [hstep]
        apply ih.2
        rintro ⟨s, hs, hsv⟩
        exact hno ⟨s, List.mem_cons_of_mem _ hs, hsv⟩

/-- C9: when some valid slot has address `pc`, `slotIdx(pc)` is the smallest
index of a valid slot with that address, and lies in `[0, slot count)`; when
no valid slot has address `pc` it is `-1`.  For the slots `(0x1000, valid)`,
`(0x1010, invalid)`, `(0x1020, valid)`, `slotIdx(0x1010)` is `-1` and
`slotIdx(0x1020)` is `2`. -/
theorem FTBEntryBase.slotIdx_first_valid_match (e : FTBEntryBase) (pc : Addr) :
    ((∃ s ∈ e.branchSlots, s.valid = true ∧ s.pc = pc) →
      ∃ j, j < e.branchSlots.length ∧ e.slotIdx pc = (j : Int) ∧
        (∃ s, e.branchSlots[j]? = some s ∧ s.valid = true ∧ s.pc = pc) ∧
        ∀ k, k < j → ∀ t, e.branchSlots[k]? = some t → ¬ (t.valid = true ∧ t.pc = pc)) ∧
    ((¬ ∃ s ∈ e.branchSlots, s.valid = true ∧ s.pc = pc) → e.slotIdx pc = -1) ∧
    threeSlotEntry.slotIdx 0x1010 = -1 ∧ threeSlotEntry.slotIdx 0x1020 = 2 ∧
    threeSlotEntry.slotIdx 0x1000 = 0 := by
  have h := slotIdxLoop_spec pc e.branchSlots 0
  refine ⟨fun hex => ?_, h.2, by decide, by decide, by decide⟩
  obtain ⟨j, hj, hval, hrest⟩ := h.1 hex
  refine ⟨j, hj, ?_, hrest⟩
  rw [FTBEntryBase.slotIdx, hval, Nat.zero_add]

/-- Witness for C9: the invalid slot at `0x1010` is not found, the valid slot
at `0x1020` is found at an index below the slot count. -/
theorem FTBEntryBase.slotIdx_first_valid_match_witness :
    threeSlotEntry.slotIdx 0x1010 = -1 ∧
    (∃ j, j < threeSlotEntry.branchSlots.length ∧ threeSlotEntry.slotIdx 0x1020 = (j : Int) ∧
      (∃ s, threeSlotEntry.branchSlots[j]? = some s ∧ s.valid = true ∧ s.pc = 0x1020) ∧
      ∀ k, k < j → ∀ t, threeSlotEntry.branchSlots[k]? = some t →
        ¬ (t.valid = true ∧ t.pc = 0x1020)) :=
  ⟨(FTBEntryBase.slotIdx_first_valid_match threeSlotEntry 0x1010).2.1 (by decide),
   (FTBEntryBase.slotIdx_first_valid_match threeSlotEntry 0x1020).1
      ⟨slotAt 0x1020 true, by decide, by decide⟩⟩

/-- The loop of `validSlotNum` adds the number of valid slots to `cnt`. -/
theorem validSlotNumLoop_eq :
    ∀ (l : List BranchSlot) (cnt : Int),
      validSlotNumLoop l cnt = cnt + (l.countP (fun s => s.valid) : Nat)
  | [], cnt => by simp [validSlotNumLoop]
  | a :: rest, cnt => by
    cases hv : a.valid
    · simp [validSlotNumLoop, hv, validSlotNumLoop_eq rest cnt]
    · simp only [validSlotNumLoop, hv, if_true, validSlotNumLoop_eq rest (cnt + 1)]
      rw [List.countP_cons_of_pos _ _ (by simp [hv])]
      push_cast
      ring

/-- The loop of `validSlotNumBefore` adds the number of valid slots below `pc`
to `cnt`. -/
theorem validSlotNumBeforeLoop_eq (pc : Addr) :
    ∀ (l : List BranchSlot) (cnt : Int),
      validSlotNumBeforeLoop pc l cnt =
        cnt + (l.countP (fun s => s.valid && decide (s.pc < pc)) : Nat)
  | [], cnt => by simp [validSlotNumBeforeLoop]
  | a :: rest, cnt => by
    cases hv : (a.valid && decide (a.pc < pc))
    · have hc : ¬ ((a.valid && decide (a.pc < pc)) = true) := by simp [hv]
      simp only [validSlotNumBeforeLoop, if_neg hc, validSlotNumBeforeLoop_eq pc rest cnt]
      rw [List.countP_cons_of_neg _ _ (by simp [hv])]
    · simp only [validSlotNumBeforeLoop, hv, if_true,
        validSlotNumBeforeLoop_eq pc rest (cnt + 1)]
      rw [List.countP_cons_of_pos _ _ (by simp [hv])]
      push_cast
      ring

/-- C10: `validSlotNum()` is the number of slots with `valid` set,
`validSlotNumBefore(pc)` is the number of valid slots whose address is
strictly below `pc`; hence `0 ≤ validSlotNumBefore(pc) ≤ validSlotNum() ≤`
slot count, and `validSlotNumBefore` is monotone in `pc`. -/
theorem FTBEntryBase.validSlotNum_counts (e : FTBEntryBase) (pc : Addr) :
    e.validSlotNum = ((e.branchSlots.filter (fun s => s.valid)).length : Int) ∧
    e.validSlotNumBefore pc =
      ((e.branchSlots.filter (fun s => s.valid && decide (s.pc < pc))).length : Int) ∧
    0 ≤ e.validSlotNumBefore pc ∧
    e.validSlotNumBefore pc ≤ e.validSlotNum ∧
    e.validSlotNum ≤ (e.branchSlots.length : Int) ∧
    (∀ pc2 : Addr, pc ≤ pc2 → e.validSlotNumBefore pc ≤ e.validSlotNumBefore pc2) := by
  have h1 : e.validSlotNum = (e.branchSlots.countP (fun s => s.valid) : Nat) := by
    rw [FTBEntryBase.validSlotNum, validSlotNumLoop_eq, Int.zero_add]
  have h2 : ∀ p : Addr, e.validSlotNumBefore p =
      (e.branchSlots.countP (fun s => s.valid && decide (s.pc < p)) : Nat) := by
    intro p
    rw [FTBEntryBase.validSlotNumBefore, validSlotNumBeforeLoop_eq, Int.zero_add]
  refine ⟨?_, ?_, ?_, ?_, ?_, ?_⟩
  · rw [h1, List.countP_eq_length_filter]
  · rw [h2, List.countP_eq_length_filter]
  · rw [h2]
    exact Int.ofNat_nonneg _
  · rw [h1, h2]
    refine Int.ofNat_le.mpr (List.countP_mono_left ?_)
    intro s _ hs
    simp only [Bool.and_eq_true] at hs
    exact hs.1
  · rw [h1]
    exact Int.ofNat_le.mpr (List.countP_le_length _)
  · intro pc2 hle
    rw [h2, h2]
    refine Int.ofNat_le.mpr (List.countP_mono_left ?_)
    intro s _ hs
    simp only [Bool.and_eq_true, decide_eq_true_eq] at hs ⊢
    exact ⟨hs.1, Nat.lt_of_lt_of_le hs.2 hle⟩

/-- Witness for C10 on the slots `(0x1000, valid)`, `(0x1010, invalid)`,
`(0x1020, valid)`: one valid slot lies below `0x1010`, and no more of them
below `0x1010` than below `0x1030`. -/
theorem FTBEntryBase.validSlotNum_counts_witness :
    threeSlotEntry.validSlotNum = 2 ∧ threeSlotEntry.validSlotNumBefore 0x1010 = 1 ∧
    threeSlotEntry.validSlotNumBefore 0x1010 ≤ threeSlotEntry.validSlotNumBefore 0x1030 :=
  ⟨by decide, by decide,
   (FTBEntryBase.validSlotNum_counts threeSlotEntry 0x1010).2.2.2.2.2 0x1030 (by decide)⟩

/-! ### Branch descriptions and slots -/

/-- Whatever its kind, exactly one of the eight kind predicates of a
`BranchInfo` holds. -/
theorem BranchInfo.kindPredicates_count (b : BranchInfo) :
    b.kindPredicates.count true = 1 := by
  obtain ⟨pc, target, size, type⟩ := b
  cases type <;> rfl

/-- C11: the kind of `BranchInfo(pc, target, inst, size)` is decided by the
first test that holds, in the order conditional, indirect, unconditional, call,
return (and not non-speculative, not direct), else `Other`; `pc`, `target` and
`size` are stored as given; the kind is never `Syscall` or `Sysret`; exactly one
of the eight kind predicates is true; a descriptor that is unconditional
control and a call, and neither conditional nor indirect, is `Unconditional`. -/
theorem BranchInfo.ofStaticInst_first_match (pc target : Addr) (inst : StaticInst)
    (size : InstSizeType) :
    ((BranchInfo.ofStaticInst pc target inst size).pc = pc ∧
      (BranchInfo.ofStaticInst pc target inst size).target = target ∧
      (BranchInfo.ofStaticInst pc target inst size).size = size) ∧
    (inst.isCondCtrl = true →
      (BranchInfo.ofStaticInst pc target inst size).type = BranchType.Conditional) ∧
    (inst.isCondCtrl = false → inst.isIndirectCtrl = true →
      (BranchInfo.ofStaticInst pc target inst size).type = BranchType.Indirect) ∧
    (inst.isCondCtrl = false → inst.isIndirectCtrl = false → inst.isUncondCtrl = true →
      (BranchInfo.ofStaticInst pc target inst size).type = BranchType.Unconditional) ∧
    (inst.isCondCtrl = false → inst.isIndirectCtrl = false → inst.isUncondCtrl = false →
      inst.isCall = true →
      (BranchInfo.ofStaticInst pc target inst size).type = BranchType.Call) ∧
    (inst.isCondCtrl = false → inst.isIndirectCtrl = false → inst.isUncondCtrl = false →
      inst.isCall = false →
      (inst.isReturn = true ∧ inst.isNonSpeculative = false ∧ inst.isDirectCtrl = false) →
      (BranchInfo.ofStaticInst pc target inst size).type = BranchType.Return) ∧
    (inst.isCondCtrl = false → inst.isIndirectCtrl = false → inst.isUncondCtrl = false →
      inst.isCall = false →
      ¬ (inst.isReturn = true ∧ inst.isNonSpeculative = false ∧ inst.isDirectCtrl = false) →
      (BranchInfo.ofStaticInst pc target inst size).type = BranchType.Other) ∧
    (BranchInfo.ofStaticInst pc target inst size).type ≠ BranchType.Syscall ∧
    (BranchInfo.ofStaticInst pc target inst size).type ≠ BranchType.Sysret ∧
    (BranchInfo.ofStaticInst pc target inst size).kindPredicates.count true = 1 ∧
    (BranchInfo.ofStaticInst pc target uncondCallInst size).type =
      BranchType.Unconditional := by
  obtain ⟨c, i, u, k, r, n, d⟩ := inst
  refine ⟨?_, ?_, ?_, ?_, ?_, ?_, ?_, ?_, ?_, BranchInfo.kindPredicates_count _, rfl⟩ <;>
    cases c <;> cases i <;> cases u <;> cases k <;> cases r <;> cases n <;> cases d <;>
    simp [BranchInfo.ofStaticInst]

/-- Witness for C11: a descriptor that is unconditional control and a call is
classified `Unconditional`, with the address, target and size as given. -/
theorem BranchInfo.ofStaticInst_first_match_witness :
    (BranchInfo.ofStaticInst 0x2008 0x3000 uncondCallInst 4).type = BranchType.Unconditional ∧
    (BranchInfo.ofStaticInst 0x2008 0x3000 uncondCallInst 4).pc = 0x2008 :=
  ⟨(BranchInfo.ofStaticInst_first_match 0x2008 0x3000 uncondCallInst 4).2.2.2.1 rfl rfl rfl,
   (BranchInfo.ofStaticInst_first_match 0x2008 0x3000 uncondCallInst 4).1.1⟩

/-- C12: the four comparison operators of `BranchInfo` decide `<`, `>`, `=` and
`≠` of the two addresses and nothing else; `!=` is the negation of `==`;
exactly one of `a < b`, `a == b`, `a > b` holds; `<` is irreflexive and
transitive and `>` is its converse; two branches with the same address compare
equal whatever their target, size and kind. -/
theorem BranchInfo.comparisons_by_pc (a b : BranchInfo) :
    (a.lt b = true ↔ a.pc < b.pc) ∧ (a.gt b = true ↔ a.pc > b.pc) ∧
    (a.eq b = true ↔ a.pc = b.pc) ∧ (a.ne b = true ↔ a.pc ≠ b.pc) ∧
    a.ne b = !a.eq b ∧
    [a.lt b, a.eq b, a.gt b].count true = 1 ∧
    a.lt a = false ∧ a.gt b = b.lt a ∧
    (∀ c : BranchInfo, a.lt b = true → b.lt c = true → a.lt c = true) ∧
    (a.pc = b.pc → a.eq b = true ∧ a.ne b = false ∧ a.lt b = false ∧ a.gt b = false) := by
  refine ⟨by simp [BranchInfo.lt], by simp [BranchInfo.gt], by simp [BranchInfo.eq],
    by simp [BranchInfo.ne], by simp [BranchInfo.ne, BranchInfo.eq], ?_,
    by simp [BranchInfo.lt], by simp [BranchInfo.gt, BranchInfo.lt], ?_, ?_⟩
  · rcases Nat.lt_trichotomy a.pc b.pc with h | h | h
    · have h1 : ¬ a.pc = b.pc := Nat.ne_of_lt h
      have h2 : ¬ a.pc > b.pc := Nat.lt_asymm h
      simp [BranchInfo.lt, BranchInfo.eq, BranchInfo.gt, h, h1, h2]
    · simp [BranchInfo.lt, BranchInfo.eq, BranchInfo.gt, h]
    · have h1 : ¬ a.pc = b.pc := fun e => Nat.ne_of_lt h e.symm
      have h2 : ¬ a.pc < b.pc := Nat.lt_asymm h
      simp [BranchInfo.lt, BranchInfo.eq, BranchInfo.gt, h, h1, h2]
  · intro c hab hbc
    simp only [BranchInfo.lt, decide_eq_true_eq] at hab hbc ⊢
    exact Nat.lt_trans hab hbc
  · intro h
    simp [BranchInfo.lt, BranchInfo.eq, BranchInfo.gt, BranchInfo.ne, h]

/-- Witness for C12: two branches at `0x2008` with different target, size and
kind compare equal, and both are below a branch at `0x200c`. -/
theorem BranchInfo.comparisons_by_pc_witness :
    (BranchInfo.eq ⟨0x2008, 0x3000, 4, BranchType.Conditional⟩
        ⟨0x2008, 0x4000, 2, BranchType.Call⟩ = true ∧
      BranchInfo.ne ⟨0x2008, 0x3000, 4, BranchType.Conditional⟩
        ⟨0x2008, 0x4000, 2, BranchType.Call⟩ = false ∧
      BranchInfo.lt ⟨0x2008, 0x3000, 4, BranchType.Conditional⟩
        ⟨0x2008, 0x4000, 2, BranchType.Call⟩ = false ∧
      BranchInfo.gt ⟨0x2008, 0x3000, 4, BranchType.Conditional⟩
        ⟨0x2008, 0x4000, 2, BranchType.Call⟩ = false) ∧
    BranchInfo.lt ⟨0x2000, 0x3000, 4, BranchType.Conditional⟩
      ⟨0x200c, 0x3000, 4, BranchType.Conditional⟩ = true :=
  ⟨(BranchInfo.comparisons_by_pc ⟨0x2008, 0x3000, 4, BranchType.Conditional⟩
      ⟨0x2008, 0x4000, 2, BranchType.Call⟩).2.2.2.2.2.2.2.2.2 rfl,
   (BranchInfo.comparisons_by_pc ⟨0x2000, 0x3000, 4, BranchType.Conditional⟩
      ⟨0x2008, 0x4000, 2, BranchType.Call⟩).2.2.2.2.2.2.2.2.1
      ⟨0x200c, 0x3000, 4, BranchType.Conditional⟩ (by decide) (by decide)⟩

/-- C13: a default-constructed slot is invalid; `condValid` and `uncondValid`
are false for every invalid slot, whatever its kind; a slot constructed from a
`BranchInfo` is valid and always-taken, carries the same address, target, size
and kind, and its `condValid` / `uncondValid` equal the `isConditional` /
`isUnconditional` of the `BranchInfo`. -/
theorem BranchSlot.construction_and_validity (s : BranchSlot) (bi : BranchInfo) :
    BranchSlot.default.valid = false ∧
    BranchSlot.default.condValid = false ∧ BranchSlot.default.uncondValid = false ∧
    (s.valid = false → s.condValid = false ∧ s.uncondValid = false) ∧
    (BranchSlot.ofBranchInfo bi).valid = true ∧
    (BranchSlot.ofBranchInfo bi).alwaysTaken = true ∧
    (BranchSlot.ofBranchInfo bi).pc = bi.pc ∧
    (BranchSlot.ofBranchInfo bi).target = bi.target ∧
    (BranchSlot.ofBranchInfo bi).size = bi.size ∧
    (BranchSlot.ofBranchInfo bi).type = bi.type ∧
    (BranchSlot.ofBranchInfo bi).condValid = bi.isConditional ∧
    (BranchSlot.ofBranchInfo bi).uncondValid = bi.isUnconditional := by
  refine ⟨rfl, rfl, rfl, fun h => ?_, rfl, rfl, rfl, rfl, rfl, rfl, ?_, ?_⟩
  · simp [BranchSlot.condValid, BranchSlot.uncondValid, h]
  · simp [BranchSlot.condValid, BranchSlot.ofBranchInfo]
  · simp [BranchSlot.uncondValid, BranchSlot.ofBranchInfo]

/-- Witness for C13: an invalid slot of conditional kind is neither
`condValid` nor `uncondValid`. -/
theorem BranchSlot.construction_and_validity_witness :
    (slotAt 0x1010 false).condValid = false ∧ (slotAt 0x1010 false).uncondValid = false :=
  (BranchSlot.construction_and_validity (slotAt 0x1010 false) BranchInfo.default).2.2.2.1 rfl

/-- A sequence of mutator calls never sets `alwaysTaken` and never touches the
branch description. -/
theorem BranchSlot.applyOps_frame :
    ∀ (ops : List SlotOp) (s : BranchSlot),
      (s.applyOps ops).toBranchInfo = s.toBranchInfo ∧
      (s.alwaysTaken = false → (s.applyOps ops).alwaysTaken = false)
  | [], _ => ⟨rfl, fun h => h⟩
  | op :: rest, s => by
    have ih := BranchSlot.applyOps_frame rest (op.apply s)
    have hstep : s.applyOps (op :: rest) = (op.apply s).applyOps rest := rfl
    rw [hstep]
    cases op
    · exact ⟨ih.1, fun h => ih.2 h⟩
    · exact ⟨ih.1, fun h => ih.2 h⟩
    · exact ⟨ih.1, fun _ => ih.2 rfl⟩

/-- C14: `invalidate` clears `valid`, `validate` sets it and
`unsetAlwaysTaken` clears `alwaysTaken`; each leaves the address, target, size,
kind and the other flag as they were.  `validate` after `invalidate` on a valid
slot gives back the slot, and once `alwaysTaken` is false it stays false under
every sequence of the three calls. -/
theorem BranchSlot.mutators_frame (s : BranchSlot) :
    (s.invalidate.valid = false ∧ s.invalidate.toBranchInfo = s.toBranchInfo ∧
      s.invalidate.alwaysTaken = s.alwaysTaken) ∧
    (s.validate.valid = true ∧ s.validate.toBranchInfo = s.toBranchInfo ∧
      s.validate.alwaysTaken = s.alwaysTaken) ∧
    (s.unsetAlwaysTaken.alwaysTaken = false ∧
      s.unsetAlwaysTaken.toBranchInfo = s.toBranchInfo ∧
      s.unsetAlwaysTaken.valid = s.valid) ∧
    (s.valid = true → s.invalidate.validate = s) ∧
    (∀ ops : List SlotOp, s.alwaysTaken = false → (s.applyOps ops).alwaysTaken = false) ∧
    (∀ ops : List SlotOp, (s.applyOps ops).toBranchInfo = s.toBranchInfo) := by
  refine ⟨⟨rfl, rfl, rfl⟩, ⟨rfl, rfl, rfl⟩, ⟨rfl, rfl, rfl⟩, fun h => ?_,
    fun ops => (BranchSlot.applyOps_frame ops s).2,
    fun ops => (BranchSlot.applyOps_frame ops s).1⟩
  obtain ⟨bi, v, t⟩ := s
  simp only at h
  simp [BranchSlot.invalidate, BranchSlot.validate, h]

/-- Witness for C14: a valid slot is restored by `validate` after
`invalidate`, and a slot whose `alwaysTaken` was cleared keeps it cleared
through `validate`, `invalidate`, `validate`. -/
theorem BranchSlot.mutators_frame_witness :
    (slotAt 0x1000 true).invalidate.validate = slotAt 0x1000 true ∧
    ((slotAt 0x1000 true).unsetAlwaysTaken.applyOps
      [SlotOp.validate, SlotOp.invalidate, SlotOp.validate]).alwaysTaken = false :=
  ⟨(BranchSlot.mutators_frame (slotAt 0x1000 true)).2.2.2.1 rfl,
   (BranchSlot.mutators_frame (slotAt 0x1000 true).unsetAlwaysTaken).2.2.2.2.1
      [SlotOp.validate, SlotOp.invalidate, SlotOp.validate] rfl⟩

/-! ### Fetch target entries -/

/-- The constructor stores every argument other than the two range ends in
the member of the same name. -/
theorem FTQEntry.construct_stores (stream_id : FetchStreamIdType) (start_pc end_pc : Addr)
    (has_branch : Bool) (target_pc : Addr) (is_stream_end : Bool) :
    (FTQEntry.construct stream_id start_pc end_pc has_branch target_pc is_stream_end).streamId
        = stream_id ∧
    (FTQEntry.construct stream_id start_pc end_pc has_branch target_pc is_stream_end).startPC
        = start_pc ∧
    (FTQEntry.construct stream_id start_pc end_pc has_branch target_pc is_stream_end).endPC
        = end_pc ∧
    (FTQEntry.construct stream_id start_pc end_pc has_branch target_pc is_stream_end).hasBranch
        = has_branch ∧
    (FTQEntry.construct stream_id start_pc end_pc has_branch target_pc is_stream_end).targetPC
        = target_pc ∧
    (FTQEntry.construct stream_id start_pc end_pc has_branch target_pc is_stream_end).isStreamEnd
        = is_stream_end :=
  ⟨rfl, rfl, rfl, rfl, rfl, rfl⟩

/-- The stored size is the exact difference whenever that difference fits a
32-bit signed integer. -/
theorem toBlockSizeType_addrSub (start_pc end_pc : Addr)
    (hlo : -(2 : Int) ^ 31 ≤ (end_pc : Int) - (start_pc : Int))
    (hhi : (end_pc : Int) - (start_pc : Int) < (2 : Int) ^ 31) :
    toBlockSizeType (addrSub end_pc start_pc) = (end_pc : Int) - (start_pc : Int) := by
  unfold toBlockSizeType addrSub
  simp only
  split <;> omega

/-- C15, refuted as stated: with `startPC = 0` and `endPC = 2^31` (so
`startPC ≤ endPC`) the stored size is `-2^31`, not `endPC - startPC = 2^31`. -/
theorem FTQEntry.size_narrowed_at_two_pow_31 :
    (0 : Addr) ≤ 0x80000000 ∧
    (FTQEntry.construct 42 0 0x80000000 false 0 true).size = -2147483648 ∧
    (FTQEntry.construct 42 0 0x80000000 false 0 true).size ≠
      ((0x80000000 : Addr) : Int) - ((0 : Addr) : Int) := by
  decide

/-- C15, amended: for `startPC ≤ endPC` with `endPC - startPC < 2^31`, the
stored size equals `endPC - startPC` as an exact integer, and `streamId`,
`startPC`, `endPC`, `hasBranch`, `targetPC` and `isStreamEnd` are stored as
given. -/
theorem FTQEntry.construct_size_exact (stream_id : FetchStreamIdType) (start_pc end_pc : Addr)
    (has_branch : Bool) (target_pc : Addr) (is_stream_end : Bool)
    (hle : start_pc ≤ end_pc) (hfit : end_pc - start_pc < 2 ^ 31) :
    (FTQEntry.construct stream_id start_pc end_pc has_branch target_pc is_stream_end).size
        = (end_pc : Int) - (start_pc : Int) ∧
    (FTQEntry.construct stream_id start_pc end_pc has_branch target_pc is_stream_end).size
        = ((end_pc - start_pc : Nat) : Int) ∧
    (FTQEntry.construct stream_id start_pc end_pc has_branch target_pc is_stream_end).streamId
        = stream_id ∧
    (FTQEntry.construct stream_id start_pc end_pc has_branch target_pc is_stream_end).startPC
        = start_pc ∧
    (FTQEntry.construct stream_id start_pc end_pc has_branch target_pc is_stream_end).endPC
        = end_pc ∧
    (FTQEntry.construct stream_id start_pc end_pc has_branch target_pc is_stream_end).hasBranch
        = has_branch ∧
    (FTQEntry.construct stream_id start_pc end_pc has_branch target_pc is_stream_end).targetPC
        = target_pc ∧
    (FTQEntry.construct stream_id start_pc end_pc has_branch target_pc is_stream_end).isStreamEnd
        = is_stream_end := by
  simp only [Addr] at *
  have hsz := toBlockSizeType_addrSub start_pc end_pc (by omega) (by omega)
  refine ⟨hsz, ?_, rfl, rfl, rfl, rfl, rfl, rfl⟩
  show toBlockSizeType (addrSub end_pc start_pc) = _
  rw [hsz]
  omega

/-- Witness for the amended C15: the range `[0x2000, 0x2010)` has size `16`. -/
theorem FTQEntry.construct_size_exact_witness :
    (FTQEntry.construct 42 0x2000 0x2010 true 0x3000 true).size = 16 :=
  (FTQEntry.construct_size_exact 42 0x2000 0x2010 true 0x3000 true
    (by decide) (by decide)).1

/-- C16, refuted as stated: with `startPC = 0x2000` and `endPC = 0x1000` the
constructor produces an entry; it stores both addresses and the size `-4096`. -/
theorem FTQEntry.reversed_range_constructed :
    (0x1000 : Addr) < 0x2000 ∧
    FTQEntry.construct 42 0x2000 0x1000 false 0 true =
      { isStreamEnd := true, streamId := 42, startPC := 0x2000, endPC := 0x1000,
        size := -4096, hasBranch := false, targetPC := 0 } := by
  decide

/-- C16, amended: the constructor tests none of its arguments.  For every pair
of addresses with `endPC < startPC` it produces an entry that stores both
addresses as given; its size is the 64-bit difference narrowed to 32 bits,
which is the negative number `endPC - startPC` whenever
`startPC - endPC ≤ 2^31`. -/
theorem FTQEntry.construct_reversed_range (stream_id : FetchStreamIdType)
    (start_pc end_pc : Addr) (has_branch : Bool) (target_pc : Addr) (is_stream_end : Bool)
    (hrev : end_pc < start_pc) :
    (FTQEntry.construct stream_id start_pc end_pc has_branch target_pc is_stream_end).startPC
        = start_pc ∧
    (FTQEntry.construct stream_id start_pc end_pc has_branch target_pc is_stream_end).endPC
        = end_pc ∧
    (FTQEntry.construct stream_id start_pc end_pc has_branch target_pc is_stream_end).size
        = toBlockSizeType (addrSub end_pc start_pc) ∧
    (start_pc - end_pc ≤ 2 ^ 31 →
      (FTQEntry.construct stream_id start_pc end_pc has_branch target_pc is_stream_end).size
        = (end_pc : Int) - (start_pc : Int) ∧
      (FTQEntry.construct stream_id start_pc end_pc has_branch target_pc is_stream_end).size
        < 0) := by
  simp only [Addr] at *
  refine ⟨rfl, rfl, rfl, fun h => ?_⟩
  have hsz := toBlockSizeType_addrSub start_pc end_pc (by omega) (by omega)
  constructor
  · exact hsz
  · show toBlockSizeType (addrSub end_pc start_pc) < 0
    rw [hsz]
    omega

/-- Witness for the amended C16: the reversed range from `0x2000` down to
`0x1000` is constructed with size `-4096`. -/
theorem FTQEntry.construct_reversed_range_witness :
    (FTQEntry.construct 42 0x2000 0x1000 false 0 true).size = (0x1000 : Int) - 0x2000 ∧
    (FTQEntry.construct 42 0x2000 0x1000 false 0 true).size < 0 :=
  (FTQEntry.construct_reversed_range 42 0x2000 0x1000 false 0 true (by decide)).2.2.2
    (by decide)

/-- C17, refuted as stated: on a stream whose `lastInstSeq` is `9`, the fetch
registration of sequence number `5` is accepted and lowers `lastInstSeq` to
`5`. -/
theorem FetchStream.fetch_five_accepted_after_nine :
    fetchedNineStream.lastInstSeq = 9 ∧ (5 : InstSeqNum) < 9 ∧
    fetchedNineStream.newInstFetched 5 = { fetchedNineStream with _lastInstSeq := 5 } ∧
    (fetchedNineStream.newInstFetched 5).lastInstSeq = 5 := by
  decide

/-- C17, amended: `newInstFetched` performs no ordering check.  For every
stream and every `seq` smaller than its `lastInstSeq` (which is then set, that
is non-zero), the registration is accepted: `lastInstSeq` becomes `seq`,
`firstInstSeq` is written only if it was unset, and no other field changes. -/
theorem FetchStream.newInstFetched_accepts_lower (s : FetchStream) (seq : InstSeqNum)
    (hlow : seq < s._lastInstSeq) :
    (s.newInstFetched seq).lastInstSeq = seq ∧
    (s.newInstFetched seq).lastInstSeq < s.lastInstSeq ∧
    (s._firstInstSeq ≠ 0 → s.newInstFetched seq = { s with _lastInstSeq := seq }) ∧
    (s._firstInstSeq = 0 →
      s.newInstFetched seq = { s with _firstInstSeq := seq, _lastInstSeq := seq }) := by
  have hcf := FetchStream.newInstFetched_closed_form s seq
  refine ⟨?_, ?_, fun h => ?_, fun h => ?_⟩
  · rw [hcf]; rfl
  · rw [hcf]; exact hlow
  · rw [hcf, if_neg h]
  · rw [hcf, if_pos h]

/-- Witness for the amended C17: `5` registered after `9`. -/
theorem FetchStream.newInstFetched_accepts_lower_witness :
    (fetchedNineStream.newInstFetched 5).lastInstSeq = 5 ∧
    (fetchedNineStream.newInstFetched 5).lastInstSeq < fetchedNineStream.lastInstSeq :=
  ⟨(FetchStream.newInstFetched_accepts_lower fetchedNineStream 5 (by decide)).1,
   (FetchStream.newInstFetched_accepts_lower fetchedNineStream 5 (by decide)).2.1⟩

/-! ### Copy, commit frame and the wrapped bound -/

/-- The copy loop, run from index `i` on a vector that has the size of the
source and already agrees with it below `i`, ends with the source vector. -/
theorem copySlotsLoop_eq (src : List BranchSlot) :
    ∀ (n i : Nat) (dst : List BranchSlot),
      dst.length = src.length → i + n = src.length →
      (∀ k, k < i → dst[k]? = src[k]?) →
      copySlotsLoop src n i dst = src
  | 0, i, dst, hlen, hi, hagree => by
    simp only [copySlotsLoop]
    apply List.ext_getElem?
    intro k
    by_cases hk : k < i
    · exact hagree k hk
    · have h1 : dst.length ≤ k := by omega
      have h2 : src.length ≤ k := by omega
      rw [List.getElem?_eq_none h1, List.getElem?_eq_none h2]
  | n + 1, i, dst, hlen, hi, hagree => by
    have hlt : i < dst.length := by omega
    have hlts : i < src.length := by omega
    simp only [copySlotsLoop, if_pos hlt]
    apply copySlotsLoop_eq src n (i + 1)
    · rw [List.length_set, hlen]
    · omega
    · intro k hk
      by_cases hki : k = i
      · rw [hki, List.getElem?_set_self hlt, List.getD_eq_getElem?_getD,
          List.getElem?_eq_getElem hlts]
        rfl
      · rw [List.getElem?_set_ne (fun h => hki h.symm)]
        exact hagree k (by omega)

/-- The copy constructor reproduces the slot vector of its argument. -/
theorem FTBEntryBase.copy_branchSlots (e : FTBEntryBase) :
    e.copy.branchSlots = e.branchSlots := by
  unfold FTBEntryBase.copy
  simp only
  apply copySlotsLoop_eq
  · simp
  · simp
  · intro k hk
    exact absurd hk (Nat.not_lt_zero k)

/-- C18: the copy constructor produces an entry with the same `tag`, `tid`,
`fallthroughPC` and `valid`, and a slot sequence of the same length whose slots
are field for field those of the original, so copy and original compare equal
under entry equality (and are the same value); replacing a slot of the copy
gives an entry that differs from the copy in that slot only, while the
original keeps its slot sequence. -/
theorem FTBEntryBase.copy_equal_and_independent (e : FTBEntryBase) :
    e.copy.tag = e.tag ∧ e.copy.tid = e.tid ∧
    e.copy.fallthroughPC = e.fallthroughPC ∧ e.copy.valid = e.valid ∧
    e.copy.branchSlots.length = e.branchSlots.length ∧
    (∀ (i : Nat) (s t : BranchSlot),
      e.copy.branchSlots[i]? = some s → e.branchSlots[i]? = some t →
      s = t ∧ s.eq t = true) ∧
    e.copy = e ∧ e.copy.eq e = true ∧ e.eq e.copy = true ∧
    (∀ (i : Nat) (s : BranchSlot) (c : FTBEntryBase), c = e.copy →
      (e, { c with branchSlots := c.branchSlots.set i s }).1.branchSlots = e.branchSlots ∧
      (∀ k, k ≠ i →
        (e, { c with branchSlots := c.branchSlots.set i s }).2.branchSlots[k]? =
          e.branchSlots[k]?)) := by
  have hs := FTBEntryBase.copy_branchSlots e
  have hfields : e.copy = { e with branchSlots := e.copy.branchSlots } := rfl
  have hcopy : e.copy = e := hfields.trans (by rw [hs])
  have hrefl : e.eq e = true := (FTBEntryBase.eq_iff e e).mpr ⟨rfl, rfl, rfl⟩
  refine ⟨rfl, rfl, rfl, rfl, by rw [hs], ?_, hcopy, ?_, ?_, ?_⟩
  · intro i s t h1 h2
    rw [hs, h2] at h1
    have hst : t = s := Option.some.inj h1
    subst hst
    exact ⟨rfl, by simp [BranchSlot.eq]⟩
  · rw [hcopy]; exact hrefl
  · rw [hcopy]; exact hrefl
  · intro i s c hc
    refine ⟨rfl, fun k hk => ?_⟩
    show (c.branchSlots.set i s)[k]? = e.branchSlots[k]?
    rw [hc, hs, List.getElem?_set_ne (fun h => hk h.symm)]

/-- Witness for C18: the copy of the three-slot entry equals it; invalidating
slot `2` of the copy leaves the original with its three slots. -/
theorem FTBEntryBase.copy_equal_and_independent_witness :
    threeSlotEntry.copy.eq threeSlotEntry = true ∧
    (threeSlotEntry,
      { threeSlotEntry.copy with
        branchSlots := threeSlotEntry.copy.branchSlots.set 2
          (slotAt 0x1020 false) }).1.branchSlots = threeSlotEntry.branchSlots :=
  ⟨(FTBEntryBase.copy_equal_and_independent threeSlotEntry).2.2.2.2.2.2.2.1,
   ((FTBEntryBase.copy_equal_and_independent threeSlotEntry).2.2.2.2.2.2.2.2.2
      2 (slotAt 0x1020 false) threeSlotEntry.copy rfl).1⟩

/-- C19: for every stream, every instruction handle and every sequence number
accepted by the assertion, `newInstCommitted` completes and changes only
`lastCommittedInstSeq`: `resolved`, the predicted and exec outcome fields, both
entries, `firstInstSeq` and `lastInstSeq` are as before, and so are the values
of `taken`, `isTaken`, `getBranchInfo`, `takenBranchPC` and `targetPC`. -/
theorem FetchStream.newInstCommitted_frame (s : FetchStream) (inst : DynInst)
    (seq : InstSeqNum) (hacc : seq = 0 ∨ seq > s.lastCommittedInstSeq) :
    ∃ t, s.newInstCommitted inst seq = some t ∧
      t = { s with lastCommittedInstSeq := seq } ∧
      t.lastCommittedInstSeq = seq ∧
      t.resolved = s.resolved ∧
      t._predEntry = s._predEntry ∧ t._updatedEntry = s._updatedEntry ∧
      t.predBranchInfo = s.predBranchInfo ∧ t.predHasBranch = s.predHasBranch ∧
      t.predHasTakenBranch = s.predHasTakenBranch ∧
      t.predTakenBranchPC = s.predTakenBranchPC ∧
      t.predTargetBranchPC = s.predTargetBranchPC ∧
      t.predFallthroughPC = s.predFallthroughPC ∧
      t.execBranchInfo = s.execBranchInfo ∧ t._execHasBranch = s._execHasBranch ∧
      t._execHasTakenBranch = s._execHasTakenBranch ∧
      t._execTakenBranchPC = s._execTakenBranchPC ∧
      t._execTargetBranchPC = s._execTargetBranchPC ∧
      t._execFallthroughPC = s._execFallthroughPC ∧
      t._firstInstSeq = s._firstInstSeq ∧ t._lastInstSeq = s._lastInstSeq ∧
      t.streamId = s.streamId ∧
      t.taken = s.taken ∧ t.isTaken = s.isTaken ∧ t.getBranchInfo = s.getBranchInfo ∧
      t.takenBranchPC = s.takenBranchPC ∧ t.targetPC = s.targetPC := by
  refine ⟨{ s with lastCommittedInstSeq := seq }, ?_, rfl, rfl, rfl, rfl, rfl, rfl, rfl, rfl,
    rfl, rfl, rfl, rfl, rfl, rfl, rfl, rfl, rfl, rfl, rfl, rfl, rfl, rfl, rfl, rfl, rfl⟩
  rw [FetchStream.newInstCommitted_closed_form, if_pos hacc]

/-- Witness for C19: a taken conditional branch committed with sequence number
`7` on a stream whose last committed number is `5`. -/
theorem FetchStream.newInstCommitted_frame_witness :
    ∃ t, committedFiveStream.newInstCommitted condTakenInst 7 = some t ∧
      t = { committedFiveStream with lastCommittedInstSeq := 7 } ∧
      t.lastCommittedInstSeq = 7 ∧ t.resolved = committedFiveStream.resolved := by
  obtain ⟨t, h1, h2, h3, h4, _⟩ :=
    FetchStream.newInstCommitted_frame committedFiveStream condTakenInst 7
      (Or.inr (by decide))
  exact ⟨t, h1, h2, h3, h4⟩

/-- Above `2^64 - 35` the 64-bit sum `start + 34` wraps below `start`. -/
theorem add34_wraps_below (n : Nat) (h64 : n < addrMod) (hhigh : addrMod - 35 < n) :
    (n + 34) % addrMod < n := by
  unfold addrMod at *
  omega

/-- Up to `2^64 - 35` the 64-bit sum `start + 34` is exact. -/
theorem add34_exact (n : Nat) (hlow : n ≤ addrMod - 35) :
    (n + 34) % addrMod = n + 34 := by
  unfold addrMod at *
  omega

/-- C20: the upper bound of `isReasonable` is `start + 34` modulo `2^64`.  For
a 64-bit `start` above `2^64 - 35` the bound wraps below `start` and the result
is false for every entry; for `start` up to `2^64 - 35` the result is the
check, over unbounded integers, that `fallthroughPC` and the address of every
valid slot lie between `start` and `start + 34`, both ends included. -/
theorem FTBEntryBase.isReasonable_wrapped_bound (e : FTBEntryBase) (start : Addr)
    (h64 : start < addrMod) :
    (addrMod - 35 < start →
      (start + 34) % addrMod < start ∧ e.isReasonable start = false) ∧
    (start ≤ addrMod - 35 →
      (start + 34) % addrMod = start + 34 ∧
      (e.isReasonable start = true ↔
        (∀ s ∈ e.branchSlots, s.valid = true → start ≤ s.pc ∧ s.pc ≤ start + 34) ∧
        start ≤ e.fallthroughPC ∧ e.fallthroughPC ≤ start + 34)) := by
  constructor
  · intro hhigh
    have hwrap : (start + 34) % addrMod < start := add34_wraps_below start h64 hhigh
    refine ⟨hwrap, ?_⟩
    rw [← Bool.not_eq_true, FTBEntryBase.isReasonable_iff]
    rintro ⟨_, h1, h2⟩
    exact Nat.lt_irrefl _ (Nat.lt_of_le_of_lt (Nat.le_trans h1 h2) hwrap)
  · intro hlow
    have hmod : (start + 34) % addrMod = start + 34 := add34_exact start hlow
    refine ⟨hmod, ?_⟩
    rw [FTBEntryBase.isReasonable_iff, hmod]

/-- Witness for C20: at `start = 2^64 - 34` the bound wraps to `0` and an entry
sitting exactly at `start` is rejected; at `start = 0x1000` the entry with a
slot at `0x1000 + 34` and fallthrough `0x1000 + 20` is accepted. -/
theorem FTBEntryBase.isReasonable_wrapped_bound_witness :
    ((0xFFFFFFFFFFFFFFDE + 34) % addrMod < 0xFFFFFFFFFFFFFFDE ∧
      (oneSlotEntry 0xFFFFFFFFFFFFFFDE 0xFFFFFFFFFFFFFFDE).isReasonable
        0xFFFFFFFFFFFFFFDE = false) ∧
    (oneSlotEntry (0x1000 + 34) (0x1000 + 20)).isReasonable 0x1000 = true :=
  ⟨(FTBEntryBase.isReasonable_wrapped_bound
      (oneSlotEntry 0xFFFFFFFFFFFFFFDE 0xFFFFFFFFFFFFFFDE) 0xFFFFFFFFFFFFFFDE
      (by decide)).1 (by decide),
   ((FTBEntryBase.isReasonable_wrapped_bound (oneSlotEntry (0x1000 + 34) (0x1000 + 20))
      0x1000 (by decide)).2 (by decide)).2.mpr (by decide)⟩

end gem5.branch_prediction
